import Mathlib

/-!
Shallow embedding of `ct_logs_processor.py` (Cluster Telemetry Logs
Processor) and verification of its specification claims.

The embedding models:
* Python `int(...)` / `float(...)` string conversion (`pyInt?`, `pyFloat?`),
  Python string `strip`, `split("(")[0]`, and lexicographic string comparison;
* `get_histograms` (the marker scan of the Record Extractor);
* `string_to_list` (the Record Decoder wrapper around `ast.literal_eval`);
* `get_run_results` (the Aggregator: fold of histogram records into
  url -> run_index -> row dictionaries, a fieldname set and anomaly stats);
* the header/row computation of `transform_and_merge` (merge mode).

Python dictionaries are modelled as insertion-ordered association lists with
in-place update; Python sets as duplicate-free lists with membership-based
equality; exceptions as `Except`.
-/

namespace CT

/-- Characters treated as whitespace by Python's `str.strip()` and by the
surrounding-whitespace stripping of `int()` / `float()` (ASCII fragment). -/
def isPyWs (c : Char) : Bool :=
  c = ' ' || c = '\t' || c = '\n' || c = '\r' || c = '\x0b' || c = '\x0c'

/-- Python `str.strip()` on a character list: drop whitespace on both ends. -/
def stripChars (l : List Char) : List Char :=
  ((l.dropWhile isPyWs).reverse.dropWhile isPyWs).reverse

/-- Python `str.strip()`. -/
def pyStrip (s : String) : String :=
  String.mk (stripChars s.data)

/-- Python `s.split("(")[0]`: everything before the first `'('` (the whole
string when no `'('` occurs). -/
def beforeFirstParen (s : String) : String :=
  String.mk (s.data.takeWhile (fun c => c ≠ '('))

/-- Numeric value of a decimal digit. -/
def digitVal (c : Char) : Nat := c.toNat - '0'.toNat

/-- Tail of a digit group with Python underscore rules: every `'_'` must be
followed (and, by the caller's entry condition, preceded) by a digit. -/
def digitsTail (acc : Nat) : List Char → Option Nat
  | [] => some acc
  | '_' :: c :: t => if c.isDigit then digitsTail (acc * 10 + digitVal c) t else none
  | ['_'] => none
  | c :: t => if c.isDigit then digitsTail (acc * 10 + digitVal c) t else none

/-- Parse an entire character list as a nonempty digit group (Python's digit
grammar for `int()` and the parts of `float()`, underscores between digits). -/
def digitsGroup : List Char → Option Nat
  | [] => none
  | c :: t => if c.isDigit then digitsTail (digitVal c) t else none

/-- Strip one optional leading sign; return the sign and the remainder. -/
def takeSign : List Char → Int × List Char
  | '+' :: t => (1, t)
  | '-' :: t => (-1, t)
  | l => (1, l)

/-- Python `int(s)` for a string argument: surrounding whitespace stripped,
one optional sign, then a nonempty digit group; `none` models `ValueError`. -/
def pyInt? (s : String) : Option Int :=
  let l := stripChars s.data
  let (sgn, rest) := takeSign l
  (digitsGroup rest).map (fun n => sgn * (n : Int))

/-- Value of a Python `float(...)` conversion.  No arithmetic is ever done on
these values by the program, so the finite case keeps the exact rational
value of the decimal literal. -/
inductive PyFloat where
  | finite (q : ℚ)
  | inf (neg : Bool)
  | nan
deriving DecidableEq

/-- Split a character list at the first occurrence of a character accepted by
`p`; `none` when no such character occurs. -/
def splitFirst (p : Char → Bool) : List Char → Option (List Char × List Char)
  | [] => none
  | c :: t =>
    if p c then some ([], t)
    else (splitFirst p t).map (fun q => (c :: q.1, q.2))

/-- Rational value of a decimal mantissa/exponent: `sgn * n0 * 10^e / 10^k`
where `n0` is the mantissa read as an integer and `k` its fraction length. -/
def decValue (sgn : Int) (n0 : Nat) (k : Nat) (e : Int) : ℚ :=
  if 0 ≤ e then mkRat (sgn * (n0 * 10 ^ e.toNat : Nat)) (10 ^ k)
  else mkRat (sgn * n0) (10 ^ k * 10 ^ (-e).toNat)

/-- Parse the mantissa of a Python float literal (after sign and exponent have
been split off): `digits`, `digits.`, `digits.digits` or `.digits`, returning
the integer reading of all mantissa digits and the fraction length. -/
def parseMantissa (mant : List Char) : Option (Nat × Nat) :=
  match splitFirst (fun c => c = '.') mant with
  | none => (digitsGroup mant).map (fun a => (a, 0))
  | some (ip, fp) =>
    if ip = [] ∧ fp = [] then none
    else
      match (if ip = [] then some 0 else digitsGroup ip),
            (if fp = [] then some 0 else digitsGroup fp) with
      | some a, some b =>
        let k := fp.countP Char.isDigit
        some (a * 10 ^ k + b, k)
      | _, _ => none

/-- Parse the exponent part of a Python float literal: optional sign and a
nonempty digit group. -/
def parseExponent (l : List Char) : Option Int :=
  let (sgn, rest) := takeSign l
  (digitsGroup rest).map (fun n => sgn * (n : Int))

/-- Python `float(s)` for a string argument: surrounding whitespace stripped,
one optional sign, then `inf`/`infinity`/`nan` (case-insensitive) or a decimal
literal with optional fraction and exponent; `none` models `ValueError`. -/
def pyFloat? (s : String) : Option PyFloat :=
  let l := stripChars s.data
  let (sgn, rest) := takeSign l
  let low := rest.map Char.toLower
  if low = "inf".data ∨ low = "infinity".data then some (.inf (sgn < 0))
  else if low = "nan".data then some .nan
  else
    match splitFirst (fun c => c = 'e' ∨ c = 'E') rest with
    | none => (parseMantissa rest).map (fun m => .finite (decValue sgn m.1 m.2 0))
    | some (mant, expPart) =>
      match parseMantissa mant, parseExponent expPart with
      | some m, some e => some (.finite (decValue sgn m.1 m.2 e))
      | _, _ => none

/-- Python `<` on strings: lexicographic comparison by code point. -/
def strLtChars : List Char → List Char → Bool
  | [], [] => false
  | [], _ :: _ => true
  | _ :: _, [] => false
  | a :: as, b :: bs =>
    if a.toNat < b.toNat then true
    else if b.toNat < a.toNat then false
    else strLtChars as bs

/-- Python `s > t` on strings (used by `histogram['count'] > '1'`). -/
def pyStrGt (s t : String) : Bool :=
  strLtChars t.data s.data

/-- A decoded histogram record (the fields of the Python dict that
`get_run_results` reads).  All fields are strings, as in the CT logs. -/
structure Histogram where
  name : String
  avg : String
  count : String
  stories : String
  storysetRepeats : String
  traceUrls : String
deriving DecidableEq

/-- A value stored in a row dictionary: `page_name` and `trace_url` hold
strings, metric columns hold converted floats. -/
inductive CellVal where
  | str (s : String)
  | num (v : PyFloat)
deriving DecidableEq

/-- A Python dict modelled as an insertion-ordered association list. -/
abbrev Dict := List (String × CellVal)

/-- Dict lookup (`k in d` / `d[k]`). -/
def dictGet (d : Dict) (k : String) : Option CellVal :=
  match d with
  | [] => none
  | (k', v) :: t => if k' = k then some v else dictGet t k

/-- Dict assignment `d[k] = v`: updates in place when the key exists (keeping
its position, as a Python dict does), appends otherwise. -/
def dictSet (d : Dict) (k : String) (v : CellVal) : Dict :=
  match d with
  | [] => [(k, v)]
  | (k', v') :: t => if k' = k then (k', v) :: t else (k', v') :: dictSet t k v

/-- Inner level of `url_to_run_index_to_rows`: run index -> row dict. -/
abbrev Runs := List (Int × Dict)

/-- Outer level of `url_to_run_index_to_rows`: url -> runs. -/
abbrev Rows := List (String × Runs)

/-- Lookup of a url entry in the outer defaultdict. -/
def rowsGet (r : Rows) (u : String) : Option Runs :=
  match r with
  | [] => none
  | (u', rs) :: t => if u' = u then some rs else rowsGet t u

/-- Lookup of a run-index entry in the inner defaultdict. -/
def runsGet (rs : Runs) (i : Int) : Option Dict :=
  match rs with
  | [] => none
  | (i', d) :: t => if i' = i then some d else runsGet t i

/-- The row dict `url_to_run_index_to_rows[url][run_index]` reads (the
defaultdict default is the empty dict). -/
def getRow (r : Rows) (u : String) (i : Int) : Dict :=
  (runsGet ((rowsGet r u).getD []) i).getD []

/-- Replace or append a run-index entry. -/
def runsSet (rs : Runs) (i : Int) (d : Dict) : Runs :=
  match rs with
  | [] => [(i, d)]
  | (i', d') :: t => if i' = i then (i', d) :: t else (i', d') :: runsSet t i d

/-- Replace or append a url entry. -/
def rowsSetU (r : Rows) (u : String) (rs : Runs) : Rows :=
  match r with
  | [] => [(u, rs)]
  | (u', rs') :: t => if u' = u then (u', rs) :: t else (u', rs') :: rowsSetU t u rs

/-- Write back the row dict at `(u, i)` (the net effect of mutating the dict
obtained from `url_to_run_index_to_rows[url][run_index]`). -/
def setRow (r : Rows) (u : String) (i : Int) (d : Dict) : Rows :=
  rowsSetU r u (runsSet ((rowsGet r u).getD []) i d)

/-- The Subject key: `histogram['stories'].split("(")[0].strip()`. -/
def subjectOf (stories : String) : String :=
  pyStrip (beforeFirstParen stories)

/-- Python set `add`: the fieldname list keeps insertion order and never holds
duplicates; set equality is membership equality. -/
def fnAdd (l : List String) (k : String) : List String :=
  if k ∈ l then l else l ++ [k]

/-- The anomaly-statistics counter `stats['more_than_one_value']`, a
`defaultdict(int)` keyed by metric name. -/
abbrev Stats := List (String × Nat)

/-- Counter lookup: `none` when the key was never incremented. -/
def statGet (s : Stats) (k : String) : Option Nat :=
  match s with
  | [] => none
  | (k', n) :: t => if k' = k then some n else statGet t k

/-- Counter increment `stats[...][metric_name] += 1` (default 0). -/
def statBump (s : Stats) (k : String) : Stats :=
  match s with
  | [] => [(k, 1)]
  | (k', n) :: t => if k' = k then (k', n + 1) :: t else (k', n) :: statBump t k

/-- The state built by `get_run_results`: the nested row structure, the
fieldname set, and the anomaly stats. -/
structure AggState where
  rows : Rows
  fieldnames : List String
  stats : Stats
deriving DecidableEq

/-- The initial aggregation state: empty rows, the pre-seeded fieldname set
`set(['page_name', 'run_index', 'trace_url'])`, empty stats. -/
def initState : AggState :=
  ⟨[], ["page_name", "run_index", "trace_url"], []⟩

/-- Errors `get_run_results` can raise: a `ValueError` from `int()`/`float()`
conversion (carrying the offending string), or `TraceUrlMismatch` carrying the
stored cell value, the record's `traceUrls`, the metric name and the run
index, as printed by the exception's constructor. -/
inductive AggError where
  | valueError (offending : String)
  | traceUrlMismatch (expected : CellVal) (found : String)
      (metricName : String) (runIndex : Int)
deriving DecidableEq

/-- One iteration of the `for histogram in ct_histograms` loop of
`get_run_results` (lines 94-121 of `ct_logs_processor.py`): skip on empty
`avg` or `count < 1`; derive the Subject and run index; bump the anomaly
counter when the `count` string exceeds `'1'`; write `page_name`, the metric
value and `trace_url` into the row dict, raising `TraceUrlMismatch` when a
stored `trace_url` differs from the record's `traceUrls`; record the metric
name in the fieldname set. -/
def foldRecord (st : AggState) (h : Histogram) : Except AggError AggState :=
  if h.avg = "" then .ok st
  else
    match pyInt? h.count with
    | none => .error (.valueError h.count)
    | some c =>
      if c < 1 then .ok st
      else
        let metricName := h.name
        let url := subjectOf h.stories
        match pyInt? h.storysetRepeats with
        | none => .error (.valueError h.storysetRepeats)
        | some runIndex =>
          let stats' := if pyStrGt h.count "1" then statBump st.stats metricName
                        else st.stats
          match pyFloat? h.avg with
          | none => .error (.valueError h.avg)
          | some v =>
            let d0 := getRow st.rows url runIndex
            let d1 := dictSet d0 "page_name" (.str url)
            let d2 := dictSet d1 metricName (.num v)
            match dictGet d2 "trace_url" with
            | some stored =>
              if stored ≠ .str h.traceUrls then
                .error (.traceUrlMismatch stored h.traceUrls metricName runIndex)
              else
                .ok ⟨setRow st.rows url runIndex d2,
                     fnAdd st.fieldnames metricName, stats'⟩
            | none =>
              .ok ⟨setRow st.rows url runIndex (dictSet d2 "trace_url" (.str h.traceUrls)),
                   fnAdd st.fieldnames metricName, stats'⟩

/-- The `for` loop of `get_run_results`: fold the records left to right, an
exception aborting the whole run. -/
def runAgg (st : AggState) : List Histogram → Except AggError AggState
  | [] => .ok st
  | h :: t =>
    match foldRecord st h with
    | .error e => .error e
    | .ok st' => runAgg st' t

/-- `get_run_results(ct_histograms)`: the state built from the record
sequence, or the first exception raised.  The Python function returns the
pair `{'run_results', 'fieldnames'}`; the loop-local `stats` counter is kept
in the state here so that the specification's AnomalyStats claims can be
stated about it. -/
def get_run_results (l : List Histogram) : Except AggError AggState :=
  runAgg initState l

deriving instance DecidableEq for Except

/-- Three-level lookup into the row structure: the cell stored for column `k`
of the row at `(u, i)`. -/
def lookup3 (r : Rows) (u : String) (i : Int) (k : String) : Option CellVal :=
  match rowsGet r u with
  | none => none
  | some rs =>
    match runsGet rs i with
    | none => none
    | some d => dictGet d k

/-- Match a literal character sequence as a prefix, returning the remainder. -/
def dropLit : List Char → List Char → Option (List Char)
  | [], rest => some rest
  | _ :: _, [] => none
  | c :: t, r :: rs => if c = r then dropLit t rs else none

/-- Does the merge-completion pattern
`Merging \d+ csv files into \d+ columns` match starting at this position? -/
def markerAt (l : List Char) : Bool :=
  match dropLit "Merging ".data l with
  | none => false
  | some r1 =>
    if r1.takeWhile Char.isDigit = [] then false
    else
      match dropLit " csv files into ".data (r1.dropWhile Char.isDigit) with
      | none => false
      | some r2 =>
        if r2.takeWhile Char.isDigit = [] then false
        else (dropLit " columns".data (r2.dropWhile Char.isDigit)).isSome

/-- `re.search` of the merge-completion pattern: try every start position. -/
def containsMarkerChars (l : List Char) : Bool :=
  markerAt l ||
    match l with
    | [] => false
    | _ :: t => containsMarkerChars t

/-- Does a log line contain the merge-completion marker
(`re.search('Merging \d+ csv files into \d+ columns', line)`)? -/
def containsMarker (line : String) : Bool :=
  containsMarkerChars line.data

/-- Error raised by the Record Decoder: `ast.literal_eval` failed on an
extracted literal; the wrapper prints the offending text, recorded here in
the carried message, and re-raises. -/
inductive DecodeError where
  | malformed (message : String)
deriving DecidableEq

/-- `string_to_list(string)` (lines 43-49): `ast.literal_eval` is the Python
standard library's static-data parser, modelled here as an abstract parameter
`literalEval` returning `none` on a syntactically invalid literal; the
source's `try`/`except` wrapper returns the parsed records on success, and on
failure prints `"Encountered error while processing this:\n" + string` and
re-raises, modelled by an error value carrying that message. -/
def string_to_list (literalEval : String → Option (List Histogram))
    (s : String) : Except DecodeError (List Histogram) :=
  match literalEval s with
  | some v => .ok v
  | none => .error (.malformed ("Encountered error while processing this:\n" ++ s))

/-- `get_histograms` (lines 53-85) as a function of the file's lines: the
`readline` loop scans for the first line containing the merge-completion
marker and returns the empty record list when end-of-file is reached first;
the processing of the rest of the file after the marker (the `re.sub` cleanup
of interleaved log lines, `re.findall("For rows: (.*?)Avg row is", ...)` and
`string_to_list` on each match) is abstracted as `processRest`, since no
claim constrains its internals. -/
def get_histograms (processRest : List String → Except DecodeError (List Histogram)) :
    List String → Except DecodeError (List Histogram)
  | [] => .ok []
  | line :: rest =>
    if containsMarker line then processRest rest
    else get_histograms processRest rest

/-- The per-url, per-run-index row dicts of one result, in iteration
(insertion) order: the rows the write loops of `write_results_to_csv` /
`transform_and_merge` pass to `csv.DictWriter.writerow` for that result. -/
def rowsList (r : Rows) : List Dict :=
  r.flatMap (fun p => p.2.map Prod.snd)

/-- The value of the loop variable `fieldnames` after
`for fieldnames in [x['fieldnames'] for x in all_results]` finishes: the last
file's fieldname set, or unbound (`none`, a `NameError` in Python) when there
are no results.  The loop body `all_fieldnames.union(fieldnames)` computes a
union but discards it (`set.union` returns a new set), so it has no effect. -/
def mergeFieldnames (results : List AggState) : Option (List String) :=
  results.foldl (fun _ x => some x.fieldnames) none

/-- The row dicts visited by the merge-mode write loop: all files' rows in
file-processing order.  These are the inputs to `csv.DictWriter.writerow`,
not necessarily the rows that reach the output table — `writerow` itself can
raise (see `writeRow`). -/
def mergedRows (results : List AggState) : List Dict :=
  results.flatMap (fun st => rowsList st.rows)

/-- An error escaping `transform_and_merge`: an aggregation exception from
one of the files, the `ValueError` that `csv.DictWriter.writerow` raises
(default `extrasaction='raise'`) when a row dict holds fields outside the
writer's fieldnames, or the `NameError` for the unbound loop variable
`fieldnames` when there are no input files. -/
inductive MergeError where
  | agg (e : AggError)
  | extraFields (wrong : List String)
  | nameErrorFieldnames
deriving DecidableEq

/-- `csv.DictWriter`'s `extrasaction='raise'` check for one row:
`rowdict.keys() - self.fieldnames` (the set difference modelled as a list in
the row's key order). -/
def wrongFields (header : List String) (d : Dict) : List String :=
  (d.map Prod.fst).filter (fun k => decide (k ∉ header))

/-- One `writer.writerow(run_result)` call of `csv.DictWriter` (default
`extrasaction='raise'`, `restval=''`): raise `ValueError` naming the fields
not in the fieldnames, otherwise write the row projected onto the fieldnames
in header order, with `''` for missing columns. -/
def writeRow (header : List String) (d : Dict) : Except MergeError (List CellVal) :=
  match wrongFields header d with
  | [] => .ok (header.map (fun k => (dictGet d k).getD (.str "")))
  | w => .error (.extraFields w)

/-- The merge-mode write loop over all rows: the written lines in order, or
the first `ValueError` raised by `writerow` (the exception aborts the run;
lines already written remain in the partially written file, which the model
does not track past the error). -/
def writeAllRows (header : List String) : List Dict → Except MergeError (List (List CellVal))
  | [] => .ok []
  | d :: t =>
    match writeRow header d with
    | .error e => .error e
    | .ok line =>
      match writeAllRows header t with
      | .error e => .error e
      | .ok rest => .ok (line :: rest)

/-- The observable output of `transform_and_merge` (lines 153-178) as a
function of the per-file record sequences: the header passed to
`csv.DictWriter` (the leaked loop variable; `list(fieldnames)` enumerates the
set in unspecified order, modelled here by the fieldname list's insertion
order) together with the written data lines, or the first exception raised —
from a file's aggregation, or from `writerow` on a row with fields outside
the header. -/
def transform_and_merge (files : List (List Histogram)) :
    Except MergeError (List String × List (List CellVal)) :=
  match files.mapM get_run_results with
  | .error e => .error (.agg e)
  | .ok results =>
    match mergeFieldnames results with
    | none => .error .nameErrorFieldnames
    | some header =>
      match writeAllRows header (mergedRows results) with
      | .error e => .error e
      | .ok lines => .ok (header, lines)

/-! ### Basic lemmas about the dictionary model -/

theorem dictGet_dictSet_self (d : Dict) (k : String) (v : CellVal) :
    dictGet (dictSet d k v) k = some v := by
  induction d with
  | nil => simp [dictGet, dictSet]
  | cons p t ih =>
    by_cases hp : p.1 = k
    · simp [dictGet, dictSet, hp]
    · simp [dictGet, dictSet, hp, ih]

theorem dictGet_dictSet_ne (d : Dict) (k k' : String) (v : CellVal)
    (hne : k ≠ k') : dictGet (dictSet d k v) k' = dictGet d k' := by
  induction d with
  | nil => simp [dictGet, dictSet, hne]
  | cons p t ih =>
    by_cases hp : p.1 = k
    · simp [dictGet, dictSet, hp, hne]
    · simp [dictGet, dictSet, hp, ih]

theorem rowsGet_rowsSetU_self (r : Rows) (u : String) (rs : Runs) :
    rowsGet (rowsSetU r u rs) u = some rs := by
  induction r with
  | nil => simp [rowsGet, rowsSetU]
  | cons p t ih =>
    by_cases hp : p.1 = u
    · simp [rowsGet, rowsSetU, hp]
    · simp [rowsGet, rowsSetU, hp, ih]

theorem rowsGet_rowsSetU_ne (r : Rows) (u u' : String) (rs : Runs)
    (hne : u ≠ u') : rowsGet (rowsSetU r u rs) u' = rowsGet r u' := by
  induction r with
  | nil => simp [rowsGet, rowsSetU, hne]
  | cons p t ih =>
    by_cases hp : p.1 = u
    · simp [rowsGet, rowsSetU, hp, hne]
    · simp [rowsGet, rowsSetU, hp, ih]

theorem runsGet_runsSet_self (rs : Runs) (i : Int) (d : Dict) :
    runsGet (runsSet rs i d) i = some d := by
  induction rs with
  | nil => simp [runsGet, runsSet]
  | cons p t ih =>
    by_cases hp : p.1 = i
    · simp [runsGet, runsSet, hp]
    · simp [runsGet, runsSet, hp, ih]

theorem runsGet_runsSet_ne (rs : Runs) (i i' : Int) (d : Dict)
    (hne : i ≠ i') : runsGet (runsSet rs i d) i' = runsGet rs i' := by
  induction rs with
  | nil => simp [runsGet, runsSet, hne]
  | cons p t ih =>
    by_cases hp : p.1 = i
    · simp [runsGet, runsSet, hp, hne]
    · simp [runsGet, runsSet, hp, ih]

theorem dictGet_getRow (r : Rows) (u : String) (i : Int) (k : String) :
    dictGet (getRow r u i) k = lookup3 r u i k := by
  unfold getRow lookup3
  cases hr : rowsGet r u with
  | none => simp [hr, runsGet, dictGet]
  | some rs =>
    cases hi : runsGet rs i with
    | none => simp [hr, hi, dictGet]
    | some d => simp [hr, hi]

theorem lookup3_setRow_self (r : Rows) (u : String) (i : Int) (d : Dict)
    (k : String) : lookup3 (setRow r u i d) u i k = dictGet d k := by
  unfold lookup3 setRow
  simp [rowsGet_rowsSetU_self, runsGet_runsSet_self]

theorem lookup3_setRow_ne (r : Rows) (u u' : String) (i i' : Int) (d : Dict)
    (k : String) (hne : u ≠ u' ∨ i ≠ i') :
    lookup3 (setRow r u i d) u' i' k = lookup3 r u' i' k := by
  unfold lookup3 setRow
  by_cases hu : u = u'
  · subst hu
    rcases hne with hne | hne
    · exact absurd rfl hne
    · simp only [rowsGet_rowsSetU_self, runsGet_runsSet_ne _ _ _ _ hne]
      cases hr : rowsGet r u with
      | none => simp [hr, runsGet]
      | some rs => simp [hr]
  · simp [rowsGet_rowsSetU_ne _ _ _ _ hu]

/-! ### Unfolding lemmas for the aggregation step -/

theorem foldRecord_skip (st : AggState) (h : Histogram)
    (hskip : h.avg = "" ∨ ∃ c, pyInt? h.count = some c ∧ c < 1) :
    foldRecord st h = .ok st := by
  rcases hskip with ha | ⟨c, hc, hlt⟩
  · simp [foldRecord, ha]
  · by_cases ha : h.avg = ""
    · simp [foldRecord, ha]
    · simp [foldRecord, ha, hc, hlt]

/-- The row dict built by one non-skipped aggregation step before the
`trace_url` handling: the current row with `page_name` and the metric value
written into it. -/
def stepDict (st : AggState) (h : Histogram) (i : Int) (v : PyFloat) : Dict :=
  dictSet (dictSet (getRow st.rows (subjectOf h.stories) i)
      "page_name" (.str (subjectOf h.stories)))
    h.name (.num v)

/-- The anomaly stats after one non-skipped aggregation step. -/
def stepStats (st : AggState) (h : Histogram) : Stats :=
  if pyStrGt h.count "1" then statBump st.stats h.name else st.stats

/-- The result of one non-skipped, successfully converted aggregation step,
written as an explicit case split on the stored `trace_url` cell. -/
def foldStep (st : AggState) (h : Histogram) (i : Int) (v : PyFloat) :
    Except AggError AggState :=
  match dictGet (stepDict st h i v) "trace_url" with
  | some stored =>
    if stored ≠ .str h.traceUrls then
      .error (.traceUrlMismatch stored h.traceUrls h.name i)
    else
      .ok ⟨setRow st.rows (subjectOf h.stories) i (stepDict st h i v),
           fnAdd st.fieldnames h.name, stepStats st h⟩
  | none =>
    .ok ⟨setRow st.rows (subjectOf h.stories) i
           (dictSet (stepDict st h i v) "trace_url" (.str h.traceUrls)),
         fnAdd st.fieldnames h.name, stepStats st h⟩

theorem foldRecord_keep (st : AggState) (h : Histogram) (c i : Int) (v : PyFloat)
    (ha : h.avg ≠ "") (hc : pyInt? h.count = some c) (hge : 1 ≤ c)
    (hi : pyInt? h.storysetRepeats = some i) (hv : pyFloat? h.avg = some v) :
    foldRecord st h = foldStep st h i v := by
  have hnlt : ¬c < 1 := Int.not_lt.mpr hge
  simp [foldRecord, foldStep, stepDict, stepStats, ha, hc, hnlt, hi, hv]

theorem foldStep_eq_none (st : AggState) (h : Histogram) (i : Int) (v : PyFloat)
    (hkey : dictGet (stepDict st h i v) "trace_url" = none) :
    foldStep st h i v =
      .ok ⟨setRow st.rows (subjectOf h.stories) i
             (dictSet (stepDict st h i v) "trace_url" (.str h.traceUrls)),
           fnAdd st.fieldnames h.name, stepStats st h⟩ := by
  unfold foldStep
  rw [hkey]

theorem foldStep_eq_some (st : AggState) (h : Histogram) (i : Int) (v : PyFloat)
    (stored : CellVal) (hkey : dictGet (stepDict st h i v) "trace_url" = some stored) :
    foldStep st h i v =
      if stored ≠ .str h.traceUrls then
        .error (.traceUrlMismatch stored h.traceUrls h.name i)
      else
        .ok ⟨setRow st.rows (subjectOf h.stories) i (stepDict st h i v),
             fnAdd st.fieldnames h.name, stepStats st h⟩ := by
  unfold foldStep
  rw [hkey]

/-- Lookup in the step dict: the metric name holds the converted value. -/
theorem stepDict_get_name (st : AggState) (h : Histogram) (i : Int) (v : PyFloat) :
    dictGet (stepDict st h i v) h.name = some (.num v) :=
  dictGet_dictSet_self _ _ _

/-- Lookup in the step dict: `page_name` holds the Subject, unless the metric
name is itself `page_name`. -/
theorem stepDict_get_page_name (st : AggState) (h : Histogram) (i : Int)
    (v : PyFloat) (hname : h.name ≠ "page_name") :
    dictGet (stepDict st h i v) "page_name" = some (.str (subjectOf h.stories)) := by
  unfold stepDict
  rw [dictGet_dictSet_ne _ _ _ _ hname, dictGet_dictSet_self]

/-- Lookup in the step dict at any other key reads the pre-step state. -/
theorem stepDict_get_other (st : AggState) (h : Histogram) (i : Int)
    (v : PyFloat) (k : String) (hk1 : h.name ≠ k) (hk2 : k ≠ "page_name") :
    dictGet (stepDict st h i v) k = lookup3 st.rows (subjectOf h.stories) i k := by
  unfold stepDict
  rw [dictGet_dictSet_ne _ _ _ _ hk1, dictGet_dictSet_ne _ _ _ _ (Ne.symm hk2),
    dictGet_getRow]

theorem foldRecord_error_conv (st : AggState) (h : Histogram)
    (ha : h.avg ≠ "") :
    (pyInt? h.count = none → foldRecord st h = .error (.valueError h.count)) ∧
    (∀ c, pyInt? h.count = some c → 1 ≤ c → pyInt? h.storysetRepeats = none →
      foldRecord st h = .error (.valueError h.storysetRepeats)) ∧
    (∀ c i, pyInt? h.count = some c → 1 ≤ c →
      pyInt? h.storysetRepeats = some i → pyFloat? h.avg = none →
      foldRecord st h = .error (.valueError h.avg)) := by
  refine ⟨fun hc => ?_, fun c hc hge hi => ?_, fun c i hc hge hi hv => ?_⟩
  · simp [foldRecord, ha, hc]
  · simp [foldRecord, ha, hc, Int.not_lt.mpr hge, hi]
  · simp [foldRecord, ha, hc, Int.not_lt.mpr hge, hi, hv]

theorem runAgg_cons_error (st : AggState) (h : Histogram) (t : List Histogram)
    (e : AggError) (he : foldRecord st h = .error e) :
    runAgg st (h :: t) = .error e := by
  simp [runAgg, he]

theorem runAgg_cons_ok (st st' : AggState) (h : Histogram) (t : List Histogram)
    (hok : foldRecord st h = .ok st') :
    runAgg st (h :: t) = runAgg st' t := by
  simp [runAgg, hok]

/-! ### Claim C3: skipped records are excluded entirely -/

/-- C3: for every input record whose `avg` field is the empty string or whose
`count` field parses to an integer less than 1, the Aggregator excludes the
record entirely: the aggregation step returns the state unchanged (so no row
column, no fieldname-set entry, no `trace_url` assignment and no
anomaly-stats increment reflects it), and when such a record is the only one
for its (Subject, repetition-index) pair the run result is the initial state,
whose row structure emits no rows. -/
theorem C3_skip_excludes (st : AggState) (h : Histogram)
    (hskip : h.avg = "" ∨ ∃ c, pyInt? h.count = some c ∧ c < 1) :
    foldRecord st h = .ok st ∧ get_run_results [h] = .ok initState ∧
      rowsList initState.rows = [] := by
  refine ⟨foldRecord_skip st h hskip, ?_, rfl⟩
  unfold get_run_results
  rw [runAgg_cons_ok _ _ _ _ (foldRecord_skip initState h hskip)]
  rfl

/-- Witness for C3 at the concrete record with `count = "0"`. -/
theorem C3_skip_excludes_witness :
    foldRecord initState ⟨"m", "3.5", "0", "s", "1", "t"⟩ = .ok initState ∧
      get_run_results [⟨"m", "3.5", "0", "s", "1", "t"⟩] = .ok initState ∧
      rowsList initState.rows = [] :=
  C3_skip_excludes initState ⟨"m", "3.5", "0", "s", "1", "t"⟩
    (Or.inr ⟨0, by decide, by decide⟩)

/-! ### Claim C4: no completion marker means an empty, non-error result -/

/-- C4: for every input whose lines contain no match of the merge-completion
pattern `Merging \d+ csv files into \d+ columns`, `get_histograms` returns the
empty record sequence as a normal (non-error) outcome, whatever the
post-marker processing would have done. -/
theorem C4_no_marker_empty (lines : List String)
    (hnone : ∀ l ∈ lines, containsMarker l = false)
    (processRest : List String → Except DecodeError (List Histogram)) :
    get_histograms processRest lines = .ok [] := by
  induction lines with
  | nil => rfl
  | cons a t ih =>
    have ha := hnone a (List.mem_cons_self a t)
    simp only [get_histograms, ha, Bool.false_eq_true, if_false]
    exact ih (fun l hl => hnone l (List.mem_cons_of_mem a hl))

/-- Witness for C4 on a two-line file with no marker, with a post-marker
continuation that would fail if it were ever consulted. -/
theorem C4_no_marker_empty_witness :
    get_histograms (fun _ => .error (.malformed "unused")) ["alpha", "beta"] = .ok [] :=
  C4_no_marker_empty ["alpha", "beta"] (by decide) (fun _ => .error (.malformed "unused"))

/-! ### Claim C8: the decoder fails loudly on malformed literals -/

/-- C8: for every candidate literal string on which the data-literal parser
fails, `string_to_list` fails with an error whose message carries the
offending raw text (the text the wrapper prints before re-raising), aborting
the file's processing with no partial-record recovery; for every
syntactically valid literal it returns exactly the records encoded in it. -/
theorem C8_decoder (literalEval : String → Option (List Histogram)) (s : String) :
    (literalEval s = none →
      string_to_list literalEval s =
        .error (.malformed ("Encountered error while processing this:\n" ++ s))) ∧
    (∀ v, literalEval s = some v → string_to_list literalEval s = .ok v) := by
  constructor
  · intro hn
    simp [string_to_list, hn]
  · intro v hv
    simp [string_to_list, hv]

/-- Witness for C8 on a parser that rejects the input `"[bad"`. -/
theorem C8_decoder_witness :
    string_to_list (fun _ => none) "[bad" =
      .error (.malformed ("Encountered error while processing this:\n" ++ "[bad")) :=
  (C8_decoder (fun _ => none) "[bad").1 rfl

/-! ### Claim C10: conversion failures raise, but only after the skip checks -/

/-- C10 counterexample: the claim states that a record whose `count` is not a
valid integer string makes the Aggregator raise a conversion error, but at
the concrete record with `avg = ""` and `count = "x"` the code skips the
record (the `avg` check runs first), returning the state unchanged rather
than raising. -/
theorem C10_counterexample :
    pyInt? "x" = none ∧
    foldRecord initState ⟨"m", "", "x", "s", "1", "t"⟩ = .ok initState ∧
    get_run_results [⟨"m", "", "x", "s", "1", "t"⟩] = .ok initState := by
  decide

/-- C10 (amended): the conversion checks run in program order after the skip
checks: when `avg` is non-empty, an unparseable `count` raises `ValueError`;
when additionally `count` parses to at least 1, an unparseable
`storysetRepeats` raises; when both parse, a non-empty unparseable `avg`
raises at the `float` conversion; and every such error aborts the whole run
rather than skipping the record. -/
theorem C10_conversion_errors (st : AggState) (h : Histogram) (ha : h.avg ≠ "") :
    (pyInt? h.count = none → foldRecord st h = .error (.valueError h.count)) ∧
    (∀ c, pyInt? h.count = some c → 1 ≤ c → pyInt? h.storysetRepeats = none →
      foldRecord st h = .error (.valueError h.storysetRepeats)) ∧
    (∀ c i, pyInt? h.count = some c → 1 ≤ c → pyInt? h.storysetRepeats = some i →
      pyFloat? h.avg = none → foldRecord st h = .error (.valueError h.avg)) ∧
    (∀ e t, foldRecord st h = .error e → runAgg st (h :: t) = .error e) :=
  ⟨(foldRecord_error_conv st h ha).1, (foldRecord_error_conv st h ha).2.1,
    (foldRecord_error_conv st h ha).2.2, fun e t he => runAgg_cons_error st h t e he⟩

/-- Witness for C10 (amended) at a record with non-empty `avg` and
unparseable `count`. -/
theorem C10_conversion_errors_witness :
    foldRecord initState ⟨"m", "3.5", "y", "s", "1", "t"⟩ = .error (.valueError "y") :=
  (C10_conversion_errors initState ⟨"m", "3.5", "y", "s", "1", "t"⟩ (by decide)).1 (by decide)

/-! ### Claim C1: trace_url is first-write-wins with fatal mismatch -/

/-- C1 counterexample: the claim states that the first record folded in for a
(Subject, repetition-index) pair fixes the row's `trace_url`, and that a
mismatch failure reports both conflicting `traceUrls` values; but at the
concrete single record whose metric name is itself `"trace_url"`, the very
first record for its pair raises `TraceUrlMismatch` instead of fixing
`trace_url` to the record's `traceUrls`, and the reported "expected" value is
the just-written converted metric value `5.0`, not a stored trace URL. -/
theorem C1_counterexample :
    get_run_results [⟨"trace_url", "5", "1", "s", "1", "t"⟩] =
      .error (.traceUrlMismatch (.num (.finite (mkRat 5 1))) "t" "trace_url" 1) := by
  decide

/-- C1 (amended): for every record folded in whose metric name is not itself
`"trace_url"`: if the row's `trace_url` is unset, the step succeeds and sets
it to the record's `traceUrls`; if it is set to a different value, the step
raises `TraceUrlMismatch` reporting both conflicting values, the metric name
and the repetition index, and any such error aborts the whole run (the
mismatch is never silently resolved or overwritten); if it is set to the same
value, the step succeeds and the stored value is unchanged.  (A record whose
metric name is `"trace_url"` instead always raises, reporting its own
just-written metric value as the expected one.) -/
theorem C1_trace_url_discipline (st : AggState) (h : Histogram) (c i : Int)
    (v : PyFloat) (ha : h.avg ≠ "") (hc : pyInt? h.count = some c) (hge : 1 ≤ c)
    (hi : pyInt? h.storysetRepeats = some i) (hv : pyFloat? h.avg = some v)
    (hname : h.name ≠ "trace_url") :
    (lookup3 st.rows (subjectOf h.stories) i "trace_url" = none →
      ∃ st', foldRecord st h = .ok st' ∧
        lookup3 st'.rows (subjectOf h.stories) i "trace_url" = some (.str h.traceUrls)) ∧
    (∀ cv, lookup3 st.rows (subjectOf h.stories) i "trace_url" = some cv →
      cv ≠ .str h.traceUrls →
      foldRecord st h = .error (.traceUrlMismatch cv h.traceUrls h.name i)) ∧
    (lookup3 st.rows (subjectOf h.stories) i "trace_url" = some (.str h.traceUrls) →
      ∃ st', foldRecord st h = .ok st' ∧
        lookup3 st'.rows (subjectOf h.stories) i "trace_url" = some (.str h.traceUrls)) ∧
    (∀ e t, foldRecord st h = .error e → runAgg st (h :: t) = .error e) := by
  have hkey : dictGet (stepDict st h i v) "trace_url" =
      lookup3 st.rows (subjectOf h.stories) i "trace_url" :=
    stepDict_get_other st h i v "trace_url" hname (by decide)
  rw [foldRecord_keep st h c i v ha hc hge hi hv]
  refine ⟨?_, ?_, ?_, fun e t he => by
    exact runAgg_cons_error st h t e (by rw [foldRecord_keep st h c i v ha hc hge hi hv]; exact he)⟩
  · intro hnone
    unfold foldStep
    rw [hkey, hnone]
    exact ⟨_, rfl, by rw [lookup3_setRow_self, dictGet_dictSet_self]⟩
  · intro cv hsome hne
    unfold foldStep
    rw [hkey, hsome]
    simp only [ne_eq, hne, not_false_eq_true, if_true]
  · intro hsome
    unfold foldStep
    rw [hkey, hsome]
    simp only [ne_eq, not_true_eq_false, if_false]
    exact ⟨_, rfl, by rw [lookup3_setRow_self, hkey, hsome]⟩

/-- Witness for C1 (amended): the first record for the pair
(`"https://a.com"`, 1) fixes `trace_url := "t1"`. -/
theorem C1_trace_url_discipline_witness :
    ∃ st', foldRecord initState ⟨"FCP", "120.5", "1", "https://a.com (#1)", "1", "t1"⟩ = .ok st' ∧
      lookup3 st'.rows (subjectOf "https://a.com (#1)") 1 "trace_url" = some (.str "t1") :=
  (C1_trace_url_discipline initState ⟨"FCP", "120.5", "1", "https://a.com (#1)", "1", "t1"⟩
    1 1 (.finite (mkRat 241 2)) (by decide) (by decide) (by decide) (by decide)
    (by decide) (by decide)).1 (by decide)

/-! ### Claim C6: the Subject key -/

/-- Helper for `specSubject`: scan the reversed characters that precede the
final `')'` for the reversed opening `" ("` of a trailing annotation,
returning the reversed text before that opening. -/
def stripAnnRev : List Char → Option (List Char)
  | [] => none
  | '(' :: ' ' :: t => some t
  | _ :: t => stripAnnRev t

/-- Subject as the specification words it (a comparison definition written
from the spec's words, not from the source): the `stories` field with any
trailing `" (...)"` annotation stripped and surrounding whitespace trimmed.
When the string does not end in a `" (...)"` group, nothing but whitespace is
removed. -/
def specSubject (stories : String) : String :=
  match stories.data.reverse with
  | ')' :: rest =>
    match stripAnnRev rest with
    | some pre => pyStrip (String.mk pre.reverse)
    | none => pyStrip stories
  | _ => pyStrip stories

/-- C6 counterexample: at `stories = "a(b)c"` there is no trailing `" (...)"`
annotation, so the claim's Subject is `"a(b)c"` itself; but the code splits at
the FIRST `'('` and aggregates the record under the key `"a"`: the produced
structure has its only row under `"a"`, not under `"a(b)c"`. -/
theorem C6_counterexample :
    specSubject "a(b)c" = "a(b)c" ∧ subjectOf "a(b)c" = "a" ∧
    get_run_results [⟨"m", "2", "1", "a(b)c", "1", "t"⟩] =
      .ok ⟨[("a", [(1, [("page_name", .str "a"),
                        ("m", .num (.finite (mkRat 2 1))),
                        ("trace_url", .str "t")])])],
           ["page_name", "run_index", "trace_url", "m"], []⟩ ∧
    ("a(b)c" : String) ≠ "a" := by
  decide

/-- C6 (amended): for every record folded in, the Subject key used for
aggregation is everything in `stories` strictly before the FIRST `'('`, with
surrounding whitespace trimmed (this agrees with stripping a trailing
`" (...)"` annotation whenever `stories` contains no other `'('`); and when
the record's metric name is not itself `"page_name"`, the row's `page_name`
column afterwards holds exactly this Subject. -/
theorem C6_subject (st st' : AggState) (h : Histogram) (c i : Int) (v : PyFloat)
    (ha : h.avg ≠ "") (hc : pyInt? h.count = some c) (hge : 1 ≤ c)
    (hi : pyInt? h.storysetRepeats = some i) (hv : pyFloat? h.avg = some v)
    (hname : h.name ≠ "page_name")
    (hok : foldRecord st h = .ok st') :
    subjectOf h.stories = pyStrip (beforeFirstParen h.stories) ∧
    lookup3 st'.rows (subjectOf h.stories) i "page_name" =
      some (.str (subjectOf h.stories)) := by
  refine ⟨rfl, ?_⟩
  rw [foldRecord_keep st h c i v ha hc hge hi hv] at hok
  cases hkey : dictGet (stepDict st h i v) "trace_url" with
  | none =>
    rw [foldStep_eq_none st h i v hkey] at hok
    injection hok with hok
    rw [← hok]
    show lookup3 (setRow st.rows (subjectOf h.stories) i
      (dictSet (stepDict st h i v) "trace_url" (.str h.traceUrls)))
        (subjectOf h.stories) i "page_name" = _
    rw [lookup3_setRow_self, dictGet_dictSet_ne _ _ _ _ (by decide),
      stepDict_get_page_name st h i v hname]
  | some stored =>
    rw [foldStep_eq_some st h i v stored hkey] at hok
    by_cases hst : stored ≠ .str h.traceUrls
    · rw [if_pos hst] at hok
      exact absurd hok (by simp)
    · rw [if_neg hst] at hok
      injection hok with hok
      rw [← hok]
      show lookup3 (setRow st.rows (subjectOf h.stories) i (stepDict st h i v))
        (subjectOf h.stories) i "page_name" = _
      rw [lookup3_setRow_self, stepDict_get_page_name st h i v hname]

/-- Witness for C6 (amended) at the spec's concrete scenario record. -/
theorem C6_subject_witness :
    subjectOf "https://a.com (#1)" = pyStrip (beforeFirstParen "https://a.com (#1)") ∧
    lookup3 (AggState.rows ⟨[("https://a.com",
        [(1, [("page_name", .str "https://a.com"),
              ("FCP", .num (.finite (mkRat 241 2))),
              ("trace_url", .str "t1")])])],
      ["page_name", "run_index", "trace_url", "FCP"], []⟩)
      (subjectOf "https://a.com (#1)") 1 "page_name" =
      some (.str (subjectOf "https://a.com (#1)")) :=
  C6_subject initState _ ⟨"FCP", "120.5", "1", "https://a.com (#1)", "1", "t1"⟩
    1 1 (.finite (mkRat 241 2)) (by decide) (by decide) (by decide) (by decide)
    (by decide) (by decide) (by decide)

/-! ### Claim C7: the anomaly-stats increment -/

/-- C7 counterexample: at the concrete folded record with `count = "02"`, the
count parses to the integer 2, which exceeds 1, so the claim requires the
anomaly counter for `"m"` to be incremented; but the code compares the
STRINGS `"02" > "1"`, which is false, and the run result carries empty stats
(the row itself is produced normally). -/
theorem C7_counterexample :
    pyInt? "02" = some 2 ∧ (1 : Int) < 2 ∧ pyStrGt "02" "1" = false ∧
    get_run_results [⟨"m", "3.5", "02", "s", "1", "t"⟩] =
      .ok ⟨[("s", [(1, [("page_name", .str "s"),
                        ("m", .num (.finite (mkRat 7 2))),
                        ("trace_url", .str "t")])])],
           ["page_name", "run_index", "trace_url", "m"], []⟩ := by
  decide

/-- C7 (amended): for every record folded in, the anomaly counter for the
record's metric name is incremented if and only if the record's `count`
string is lexicographically greater than the string `"1"` (which coincides
with "integer value exceeds 1" on canonical decimal representations, but not
e.g. on `"02"` or `"+2"`); and the stats never influence the rest of the
result: for any two starting states with the same rows and fieldnames, the
step's outcome projected to (rows, fieldnames) — and any raised error — is
identical regardless of the stats component. -/
theorem C7_anomaly_stats (st : AggState) (h : Histogram) (c i : Int)
    (v : PyFloat) (ha : h.avg ≠ "") (hc : pyInt? h.count = some c) (hge : 1 ≤ c)
    (hi : pyInt? h.storysetRepeats = some i) (hv : pyFloat? h.avg = some v) :
    (∀ st', foldRecord st h = .ok st' →
      st'.stats = if pyStrGt h.count "1" then statBump st.stats h.name else st.stats) ∧
    (∀ stB : AggState, stB.rows = st.rows → stB.fieldnames = st.fieldnames →
      (foldRecord stB h).map (fun x => (x.rows, x.fieldnames)) =
        (foldRecord st h).map (fun x => (x.rows, x.fieldnames))) := by
  constructor
  · intro st' hok
    rw [foldRecord_keep st h c i v ha hc hge hi hv] at hok
    cases hkey : dictGet (stepDict st h i v) "trace_url" with
    | none =>
      rw [foldStep_eq_none st h i v hkey] at hok
      injection hok with hok
      rw [← hok]
      rfl
    | some stored =>
      rw [foldStep_eq_some st h i v stored hkey] at hok
      by_cases hst : stored ≠ .str h.traceUrls
      · rw [if_pos hst] at hok
        exact absurd hok (by simp)
      · rw [if_neg hst] at hok
        injection hok with hok
        rw [← hok]
        rfl
  · intro stB hr hf
    rw [foldRecord_keep st h c i v ha hc hge hi hv,
      foldRecord_keep stB h c i v ha hc hge hi hv]
    have hd : stepDict stB h i v = stepDict st h i v := by
      unfold stepDict
      rw [hr]
    cases hkey : dictGet (stepDict st h i v) "trace_url" with
    | none =>
      rw [foldStep_eq_none st h i v hkey,
        foldStep_eq_none stB h i v (by rw [hd]; exact hkey)]
      simp [Except.map, hd, hr, hf]
    | some stored =>
      rw [foldStep_eq_some st h i v stored hkey,
        foldStep_eq_some stB h i v stored (by rw [hd]; exact hkey)]
      by_cases hst : stored ≠ .str h.traceUrls
      · rw [if_pos hst, if_pos hst]
      · rw [if_neg hst, if_neg hst]
        simp [Except.map, hd, hr, hf]

/-- Witness for C7 (amended): at a record with `count = "2"` the counter for
`"m"` is bumped to 1. -/
theorem C7_anomaly_stats_witness :
    (AggState.stats ⟨[("s", [(1, [("page_name", .str "s"),
                                  ("m", .num (.finite (mkRat 7 2))),
                                  ("trace_url", .str "t")])])],
        ["page_name", "run_index", "trace_url", "m"], [("m", 1)]⟩) =
      if pyStrGt "2" "1" then statBump initState.stats "m" else initState.stats :=
  (C7_anomaly_stats initState ⟨"m", "3.5", "2", "s", "1", "t"⟩ 2 1
      (.finite (mkRat 7 2)) (by decide) (by decide) (by decide) (by decide)
      (by decide)).1
    ⟨[("s", [(1, [("page_name", .str "s"),
                  ("m", .num (.finite (mkRat 7 2))),
                  ("trace_url", .str "t")])])],
      ["page_name", "run_index", "trace_url", "m"], [("m", 1)]⟩
    (by decide)

/-! ### Inversion of a successful aggregation step -/

/-- A successful aggregation step either skipped the record (state unchanged)
or folded it: the fieldnames gain the metric name, the stats become the step
stats, and the rows are updated at the record's (Subject, run-index) slot
with the step dict, with `trace_url` possibly written on top. -/
theorem foldRecord_ok_inv (st st' : AggState) (h : Histogram)
    (hok : foldRecord st h = .ok st') :
    st' = st ∨
    ∃ c i v, h.avg ≠ "" ∧ pyInt? h.count = some c ∧ 1 ≤ c ∧
      pyInt? h.storysetRepeats = some i ∧ pyFloat? h.avg = some v ∧
      st'.fieldnames = fnAdd st.fieldnames h.name ∧
      st'.stats = stepStats st h ∧
      ∃ d, (d = stepDict st h i v ∨
            d = dictSet (stepDict st h i v) "trace_url" (.str h.traceUrls)) ∧
        st'.rows = setRow st.rows (subjectOf h.stories) i d := by
  by_cases ha : h.avg = ""
  · left
    rw [foldRecord_skip st h (Or.inl ha)] at hok
    injection hok with hok
    exact hok.symm
  · cases hc : pyInt? h.count with
    | none =>
      rw [(foldRecord_error_conv st h ha).1 hc] at hok
      exact absurd hok (by simp)
    | some c =>
      by_cases hlt : c < 1
      · left
        rw [foldRecord_skip st h (Or.inr ⟨c, hc, hlt⟩)] at hok
        injection hok with hok
        exact hok.symm
      · have hge : 1 ≤ c := Int.not_lt.mp hlt
        cases hi : pyInt? h.storysetRepeats with
        | none =>
          rw [(foldRecord_error_conv st h ha).2.1 c hc hge hi] at hok
          exact absurd hok (by simp)
        | some i =>
          cases hv : pyFloat? h.avg with
          | none =>
            rw [(foldRecord_error_conv st h ha).2.2 c i hc hge hi hv] at hok
            exact absurd hok (by simp)
          | some v =>
            right
            refine ⟨c, i, v, ha, rfl, hge, rfl, rfl, ?_⟩
            rw [foldRecord_keep st h c i v ha hc hge hi hv] at hok
            cases hkey : dictGet (stepDict st h i v) "trace_url" with
            | none =>
              rw [foldStep_eq_none st h i v hkey] at hok
              injection hok with hok
              rw [← hok]
              exact ⟨rfl, rfl, _, Or.inr rfl, rfl⟩
            | some stored =>
              rw [foldStep_eq_some st h i v stored hkey] at hok
              by_cases hst : stored ≠ .str h.traceUrls
              · rw [if_pos hst] at hok
                exact absurd hok (by simp)
              · rw [if_neg hst] at hok
                injection hok with hok
                rw [← hok]
                exact ⟨rfl, rfl, _, Or.inl rfl, rfl⟩

theorem mem_fnAdd_of_mem (l : List String) (k k' : String) (hm : k ∈ l) :
    k ∈ fnAdd l k' := by
  unfold fnAdd
  by_cases hk : k' ∈ l
  · simp [hk, hm]
  · simp [hk, hm]

theorem foldRecord_ok_fieldnames_mono (st st' : AggState) (h : Histogram)
    (hok : foldRecord st h = .ok st') (k : String) (hm : k ∈ st.fieldnames) :
    k ∈ st'.fieldnames := by
  rcases foldRecord_ok_inv st st' h hok with heq | ⟨c, i, v, _, _, _, _, _, hf, _⟩
  · rw [heq]; exact hm
  · rw [hf]; exact mem_fnAdd_of_mem _ _ _ hm

/-- A successful step leaves every column other than `page_name`,
`trace_url` and the record's own metric name unchanged in every row. -/
theorem foldRecord_ok_lookup3_other (st st' : AggState) (h : Histogram)
    (k : String) (hk_name : h.name ≠ k) (hk_pn : k ≠ "page_name")
    (hk_tr : k ≠ "trace_url") (hok : foldRecord st h = .ok st')
    (u : String) (i : Int) :
    lookup3 st'.rows u i k = lookup3 st.rows u i k := by
  rcases foldRecord_ok_inv st st' h hok with heq |
    ⟨c, i0, v, _, _, _, _, _, _, _, d, hd, hrows⟩
  · rw [heq]
  · rw [hrows]
    by_cases hui : subjectOf h.stories = u ∧ i0 = i
    · obtain ⟨hu, hi⟩ := hui
      subst hu
      subst hi
      rw [lookup3_setRow_self]
      rcases hd with rfl | rfl
      · exact stepDict_get_other st h i0 v k hk_name hk_pn
      · rw [dictGet_dictSet_ne _ _ _ _ (Ne.symm hk_tr)]
        exact stepDict_get_other st h i0 v k hk_name hk_pn
    · have hne : subjectOf h.stories ≠ u ∨ i0 ≠ i := by tauto
      rw [lookup3_setRow_ne _ _ _ _ _ _ _ hne]

/-- Fold-level invariant: a column key that is none of `page_name`,
`trace_url` or any folded record's metric name never appears in any row, and
fieldname membership is preserved. -/
theorem runAgg_absent (k : String) (hk_pn : k ≠ "page_name")
    (hk_tr : k ≠ "trace_url") :
    ∀ (l : List Histogram) (st0 st : AggState),
      (∀ r ∈ l, r.name ≠ k) → runAgg st0 l = .ok st →
      (∀ u i, lookup3 st0.rows u i k = none) → k ∈ st0.fieldnames →
      k ∈ st.fieldnames ∧ ∀ u i, lookup3 st.rows u i k = none := by
  intro l
  induction l with
  | nil =>
    intro st0 st _ hok h0 hm
    injection hok with hok
    subst hok
    exact ⟨hm, h0⟩
  | cons h t ih =>
    intro st0 st hnames hok h0 hm
    cases hf : foldRecord st0 h with
    | error e =>
      rw [runAgg_cons_error _ _ _ _ hf] at hok
      exact absurd hok (by simp)
    | ok st1 =>
      rw [runAgg_cons_ok _ _ _ _ hf] at hok
      have hname : h.name ≠ k := hnames h (List.mem_cons_self h t)
      have h1 : ∀ u i, lookup3 st1.rows u i k = none := fun u i => by
        rw [foldRecord_ok_lookup3_other st0 st1 h k hname hk_pn hk_tr hf u i]
        exact h0 u i
      exact ih st1 st (fun r hr => hnames r (List.mem_cons_of_mem h hr)) hok h1
        (foldRecord_ok_fieldnames_mono st0 st1 h hf k hm)

/-! ### Claim C9: the run_index column is always empty -/

/-- C9 counterexample: the claim states that no aggregate row ever contains a
`run_index` key; but at the concrete record whose metric name is itself
`"run_index"`, the produced row maps `run_index` to the converted metric
value `2.0`. -/
theorem C9_counterexample :
    get_run_results [⟨"run_index", "2", "1", "s", "1", "t"⟩] =
      .ok ⟨[("s", [(1, [("page_name", .str "s"),
                        ("run_index", .num (.finite (mkRat 2 1))),
                        ("trace_url", .str "t")])])],
           ["page_name", "run_index", "trace_url"], []⟩ ∧
    lookup3 [("s", [(1, [("page_name", .str "s"),
                         ("run_index", .num (.finite (mkRat 2 1))),
                         ("trace_url", .str "t")])])] "s" 1 "run_index" =
      some (.num (.finite (mkRat 2 1))) := by
  decide

/-- C9 (amended): the fieldname set is pre-seeded with `run_index`, so every
emitted header contains a `run_index` column; and provided no folded record's
metric name is itself `"run_index"`, no aggregate row ever contains a
`run_index` key (the repetition index is used only as the second-level map
key), so the `run_index` column is empty in every emitted data row. -/
theorem C9_run_index_empty (l : List Histogram) (st : AggState)
    (hnames : ∀ r ∈ l, r.name ≠ "run_index")
    (hok : get_run_results l = .ok st) :
    "run_index" ∈ st.fieldnames ∧
      ∀ u i, lookup3 st.rows u i "run_index" = none :=
  runAgg_absent "run_index" (by decide) (by decide) l initState st hnames hok
    (fun _ _ => rfl) (by decide)

/-- Witness for C9 (amended) at the spec's concrete scenario record. -/
theorem C9_run_index_empty_witness :
    "run_index" ∈ (AggState.fieldnames ⟨[("https://a.com",
        [(1, [("page_name", .str "https://a.com"),
              ("FCP", .num (.finite (mkRat 241 2))),
              ("trace_url", .str "t1")])])],
      ["page_name", "run_index", "trace_url", "FCP"], []⟩) ∧
    ∀ u i, lookup3 (AggState.rows ⟨[("https://a.com",
        [(1, [("page_name", .str "https://a.com"),
              ("FCP", .num (.finite (mkRat 241 2))),
              ("trace_url", .str "t1")])])],
      ["page_name", "run_index", "trace_url", "FCP"], []⟩) u i "run_index" = none :=
  C9_run_index_empty [⟨"FCP", "120.5", "1", "https://a.com (#1)", "1", "t1"⟩]
    ⟨[("https://a.com",
        [(1, [("page_name", .str "https://a.com"),
              ("FCP", .num (.finite (mkRat 241 2))),
              ("trace_url", .str "t1")])])],
      ["page_name", "run_index", "trace_url", "FCP"], []⟩
    (by decide) (by decide)

/-! ### Claim C2: the merge-mode header -/

theorem foldl_fieldnames_last (t : List AggState) :
    ∀ (a : AggState) (acc : Option (List String)),
      List.foldl (fun _ x => some x.fieldnames) acc (a :: t) =
        some ((a :: t).getLast (by simp)).fieldnames := by
  induction t with
  | nil =>
    intro a acc
    simp [List.getLast]
  | cons b t' ih =>
    intro a acc
    have h1 : List.foldl (fun _ x => some x.fieldnames) acc (a :: b :: t') =
        List.foldl (fun _ x => some x.fieldnames) (some a.fieldnames) (b :: t') := rfl
    rw [h1, ih b (some a.fieldnames)]
    congr 1

/-- The loop variable `fieldnames` holds the last file's fieldname set after
the (dead) union loop. -/
theorem mergeFieldnames_eq_getLast (results : List AggState)
    (hne : results ≠ []) :
    mergeFieldnames results = some (results.getLast hne).fieldnames := by
  cases results with
  | nil => exact absurd rfl hne
  | cons a t => exact foldl_fieldnames_last t a none

theorem writeAllRows_cons_error (header : List String) (d : Dict) (t : List Dict)
    (e : MergeError) (he : writeRow header d = .error e) :
    writeAllRows header (d :: t) = .error e := by
  simp [writeAllRows, he]

theorem writeAllRows_cons_ok (header : List String) (d : Dict) (t : List Dict)
    (line : List CellVal) (hl : writeRow header d = .ok line) :
    writeAllRows header (d :: t) =
      match writeAllRows header t with
      | .error e => .error e
      | .ok rest => .ok (line :: rest) := by
  simp [writeAllRows, hl]

/-- When every row's fields lie within the header, the write loop succeeds
and emits every row projected onto the header, in order. -/
theorem writeAllRows_ok_of_no_wrong (header : List String) :
    ∀ rows : List Dict, (∀ d ∈ rows, wrongFields header d = []) →
      writeAllRows header rows =
        .ok (rows.map (fun d => header.map (fun k => (dictGet d k).getD (.str "")))) := by
  intro rows
  induction rows with
  | nil =>
    intro _
    rfl
  | cons d t ih =>
    intro h
    have hd : wrongFields header d = [] := h d (List.mem_cons_self d t)
    have hw : writeRow header d =
        .ok (header.map (fun k => (dictGet d k).getD (.str ""))) := by
      unfold writeRow
      rw [hd]
    rw [writeAllRows_cons_ok header d t _ hw,
      ih (fun x hx => h x (List.mem_cons_of_mem d hx))]
    rfl

/-- A successful write loop means no row held fields outside the header. -/
theorem writeAllRows_ok_inv (header : List String) :
    ∀ (rows : List Dict) (lines : List (List CellVal)),
      writeAllRows header rows = .ok lines →
      ∀ d ∈ rows, wrongFields header d = [] := by
  intro rows
  induction rows with
  | nil =>
    intro lines _ d hd
    simp at hd
  | cons d t ih =>
    intro lines h x hx
    cases hw : writeRow header d with
    | error e =>
      rw [writeAllRows_cons_error header d t e hw] at h
      exact absurd h (by simp)
    | ok line =>
      rw [writeAllRows_cons_ok header d t line hw] at h
      cases hr : writeAllRows header t with
      | error e =>
        rw [hr] at h
        exact absurd h (by simp)
      | ok rest =>
        rcases List.mem_cons.mp hx with hxd | hx2
        · subst hxd
          cases hwf : wrongFields header x with
          | nil => rfl
          | cons w ws =>
            unfold writeRow at hw
            rw [hwf] at hw
            exact absurd hw (by simp)
        · exact ih rest hr x hx2

/-- C2 counterexample: file 1 holds the single metric `"B"`, file 2 holds
metrics `"A"` and `"B"`.  Every row's fields lie within the last file's
fieldname set, so the merge completes, and the written header is the LAST
file's ColumnSet `{page_name, run_index, trace_url, A, B}` — it contains
`"A"`, which is not in the first file's ColumnSet
`{page_name, run_index, trace_url, B}`, so the header is not the first
processed file's ColumnSet as the claim states. -/
theorem C2_counterexample :
    transform_and_merge [[⟨"B", "1.5", "1", "u1", "1", "t1"⟩],
                         [⟨"A", "2.5", "1", "u2", "1", "t2"⟩,
                          ⟨"B", "3.5", "1", "u2", "1", "t2"⟩]] =
      .ok (["page_name", "run_index", "trace_url", "A", "B"],
           [[.str "u1", .str "", .str "t1", .str "", .num (.finite (mkRat 3 2))],
            [.str "u2", .str "", .str "t2", .num (.finite (mkRat 5 2)),
             .num (.finite (mkRat 7 2))]]) ∧
    get_run_results [⟨"B", "1.5", "1", "u1", "1", "t1"⟩] =
      .ok ⟨[("u1", [(1, [("page_name", .str "u1"),
                         ("B", .num (.finite (mkRat 3 2))),
                         ("trace_url", .str "t1")])])],
           ["page_name", "run_index", "trace_url", "B"], []⟩ ∧
    ("A" : String) ∈ (["page_name", "run_index", "trace_url", "A", "B"] : List String) ∧
    ("A" : String) ∉ (["page_name", "run_index", "trace_url", "B"] : List String) := by
  decide

/-- C2 (amended): in multi-file merge mode the header written to the combined
output is the ColumnSet of the LAST processed file (the union computed in the
loop is discarded and the loop variable leaks), and the data rows of all
files are fed to the writer in file-processing order; the combined table
receives all of them (each projected onto the header, missing columns empty)
exactly when every row's fields lie within that header — otherwise
`csv.DictWriter` (default `extrasaction='raise'`) raises `ValueError` at the
first row holding a field outside the header, fatally for the run. -/
theorem C2_merge_output (files : List (List Histogram)) (results : List AggState)
    (hm : files.mapM get_run_results = .ok results) (hne : results ≠ []) :
    (transform_and_merge files =
      match writeAllRows (results.getLast hne).fieldnames (mergedRows results) with
      | .error e => .error e
      | .ok lines => .ok ((results.getLast hne).fieldnames, lines)) ∧
    ((∀ d ∈ mergedRows results, wrongFields (results.getLast hne).fieldnames d = []) →
      transform_and_merge files =
        .ok ((results.getLast hne).fieldnames,
          (mergedRows results).map (fun d =>
            (results.getLast hne).fieldnames.map (fun k => (dictGet d k).getD (.str ""))))) ∧
    (∀ hdr lines, transform_and_merge files = .ok (hdr, lines) →
      hdr = (results.getLast hne).fieldnames ∧
      (∀ d ∈ mergedRows results, wrongFields (results.getLast hne).fieldnames d = []) ∧
      lines = (mergedRows results).map (fun d =>
        (results.getLast hne).fieldnames.map (fun k => (dictGet d k).getD (.str "")))) := by
  have ha : transform_and_merge files =
      match writeAllRows (results.getLast hne).fieldnames (mergedRows results) with
      | .error e => .error e
      | .ok lines => .ok ((results.getLast hne).fieldnames, lines) := by
    unfold transform_and_merge
    rw [hm]
    show (match mergeFieldnames results with
      | none => Except.error MergeError.nameErrorFieldnames
      | some header =>
        match writeAllRows header (mergedRows results) with
        | Except.error e => Except.error e
        | Except.ok lines => Except.ok (header, lines)) = _
    rw [mergeFieldnames_eq_getLast results hne]
  refine ⟨ha, ?_, ?_⟩
  · intro hall
    rw [ha, writeAllRows_ok_of_no_wrong _ _ hall]
  · intro hdr lines h
    rw [ha] at h
    cases hw : writeAllRows (results.getLast hne).fieldnames (mergedRows results) with
    | error e =>
      rw [hw] at h
      exact absurd h (by simp)
    | ok ls =>
      rw [hw] at h
      injection h with h
      have h1 : (results.getLast hne).fieldnames = hdr := congrArg Prod.fst h
      have h2 : ls = lines := congrArg Prod.snd h
      have hall := writeAllRows_ok_inv _ _ _ hw
      refine ⟨h1.symm, hall, ?_⟩
      rw [← h2]
      have hu := writeAllRows_ok_of_no_wrong (results.getLast hne).fieldnames
        (mergedRows results) hall
      rw [hw] at hu
      injection hu with hu

/-- Witness for C2 (amended) on the two concrete files of the
counterexample, whose rows all fit the last file's header. -/
theorem C2_merge_output_witness :
    transform_and_merge [[⟨"B", "1.5", "1", "u1", "1", "t1"⟩],
                         [⟨"A", "2.5", "1", "u2", "1", "t2"⟩,
                          ⟨"B", "3.5", "1", "u2", "1", "t2"⟩]] =
      .ok ((([⟨[("u1", [(1, [("page_name", .str "u1"),
                             ("B", .num (.finite (mkRat 3 2))),
                             ("trace_url", .str "t1")])])],
               ["page_name", "run_index", "trace_url", "B"], []⟩,
              ⟨[("u2", [(1, [("page_name", .str "u2"),
                             ("A", .num (.finite (mkRat 5 2))),
                             ("trace_url", .str "t2"),
                             ("B", .num (.finite (mkRat 7 2)))])])],
               ["page_name", "run_index", "trace_url", "A", "B"], []⟩] :
           List AggState).getLast (by simp)).fieldnames,
        (mergedRows [⟨[("u1", [(1, [("page_name", .str "u1"),
                                    ("B", .num (.finite (mkRat 3 2))),
                                    ("trace_url", .str "t1")])])],
                      ["page_name", "run_index", "trace_url", "B"], []⟩,
                     ⟨[("u2", [(1, [("page_name", .str "u2"),
                                    ("A", .num (.finite (mkRat 5 2))),
                                    ("trace_url", .str "t2"),
                                    ("B", .num (.finite (mkRat 7 2)))])])],
                      ["page_name", "run_index", "trace_url", "A", "B"], []⟩]).map
          (fun d =>
            (([⟨[("u1", [(1, [("page_name", .str "u1"),
                              ("B", .num (.finite (mkRat 3 2))),
                              ("trace_url", .str "t1")])])],
                ["page_name", "run_index", "trace_url", "B"], []⟩,
               ⟨[("u2", [(1, [("page_name", .str "u2"),
                              ("A", .num (.finite (mkRat 5 2))),
                              ("trace_url", .str "t2"),
                              ("B", .num (.finite (mkRat 7 2)))])])],
                ["page_name", "run_index", "trace_url", "A", "B"], []⟩] :
             List AggState).getLast (by simp)).fieldnames.map
              (fun k => (dictGet d k).getD (.str "")))) :=
  (C2_merge_output [[⟨"B", "1.5", "1", "u1", "1", "t1"⟩],
                    [⟨"A", "2.5", "1", "u2", "1", "t2"⟩,
                     ⟨"B", "3.5", "1", "u2", "1", "t2"⟩]]
    [⟨[("u1", [(1, [("page_name", .str "u1"),
                    ("B", .num (.finite (mkRat 3 2))),
                    ("trace_url", .str "t1")])])],
      ["page_name", "run_index", "trace_url", "B"], []⟩,
     ⟨[("u2", [(1, [("page_name", .str "u2"),
                    ("A", .num (.finite (mkRat 5 2))),
                    ("trace_url", .str "t2"),
                    ("B", .num (.finite (mkRat 7 2)))])])],
      ["page_name", "run_index", "trace_url", "A", "B"], []⟩]
    (by decide) (by simp)).2.1 (by decide)

/-! ### Equivalence of aggregation results (Python `==` on the returned
structures: nested dicts compared by key lookup, sets by membership) -/

/-- Two-level lookup: the row dict stored at `(u, i)`, if any. -/
def runsGet2 (r : Rows) (u : String) (i : Int) : Option Dict :=
  match rowsGet r u with
  | none => none
  | some rs => runsGet rs i

/-- Does the Aggregator fold this record rather than skip it?  (`avg`
non-empty and `count` parsing to at least 1.) -/
def keeps (r : Histogram) : Bool :=
  !(r.avg == "") &&
    (match pyInt? r.count with
     | some c => decide (1 ≤ c)
     | none => false)

/-- Equality of the nested row structures as Python `==` sees it: the same
url keys, the same run-index keys under each url, and the same cell under
every (url, run index, column) triple. -/
def rowsEquiv (a b : Rows) : Prop :=
  (∀ u, (rowsGet a u).isSome = (rowsGet b u).isSome) ∧
  (∀ u i, (runsGet2 a u i).isSome = (runsGet2 b u i).isSome) ∧
  (∀ u i k, lookup3 a u i k = lookup3 b u i k)

/-- Equality of fieldname sets as Python `==` sees it: same membership. -/
def fnEquiv (a b : List String) : Prop := ∀ k, k ∈ a ↔ k ∈ b

/-- Equality of the anomaly counters as Python `==` sees it. -/
def statsEquiv (a b : Stats) : Prop := ∀ k, statGet a k = statGet b k

/-- Equality of two aggregation results as Python `==` sees it. -/
def stateEquiv (a b : AggState) : Prop :=
  rowsEquiv a.rows b.rows ∧ fnEquiv a.fieldnames b.fieldnames ∧
    statsEquiv a.stats b.stats

theorem lookup3_eq_runsGet2 (r : Rows) (u : String) (i : Int) (k : String) :
    lookup3 r u i k =
      match runsGet2 r u i with
      | none => none
      | some d => dictGet d k := by
  unfold lookup3 runsGet2
  cases rowsGet r u with
  | none => rfl
  | some rs => rfl

theorem lookup3_none_of_runsGet2_none (r : Rows) (u : String) (i : Int)
    (k : String) (hn : runsGet2 r u i = none) : lookup3 r u i k = none := by
  rw [lookup3_eq_runsGet2, hn]

theorem runsGet2_setRow_self (r : Rows) (u : String) (i : Int) (d : Dict) :
    runsGet2 (setRow r u i d) u i = some d := by
  unfold runsGet2 setRow
  simp [rowsGet_rowsSetU_self, runsGet_runsSet_self]

theorem runsGet2_setRow_ne (r : Rows) (u u' : String) (i i' : Int) (d : Dict)
    (hne : u ≠ u' ∨ i ≠ i') :
    runsGet2 (setRow r u i d) u' i' = runsGet2 r u' i' := by
  unfold runsGet2 setRow
  by_cases hu : u = u'
  · subst hu
    rcases hne with hne | hne
    · exact absurd rfl hne
    · simp only [rowsGet_rowsSetU_self, runsGet_runsSet_ne _ _ _ _ hne]
      cases hr : rowsGet r u with
      | none => simp [hr, runsGet]
      | some rs => simp [hr]
  · simp [rowsGet_rowsSetU_ne _ _ _ _ hu]

theorem rowsGet_setRow_self_isSome (r : Rows) (u : String) (i : Int) (d : Dict) :
    (rowsGet (setRow r u i d) u).isSome = true := by
  unfold setRow
  rw [rowsGet_rowsSetU_self]
  rfl

theorem rowsGet_setRow_ne (r : Rows) (u u' : String) (i : Int) (d : Dict)
    (hne : u ≠ u') : rowsGet (setRow r u i d) u' = rowsGet r u' := by
  unfold setRow
  exact rowsGet_rowsSetU_ne _ _ _ _ hne

theorem mem_fnAdd_iff (l : List String) (k k' : String) :
    k ∈ fnAdd l k' ↔ k ∈ l ∨ k = k' := by
  unfold fnAdd
  by_cases hk : k' ∈ l
  · simp only [hk, if_true]
    constructor
    · exact Or.inl
    · rintro (h | rfl)
      · exact h
      · exact hk
  · simp [hk]

theorem statGet_statBump_self (s : Stats) (n : String) :
    statGet (statBump s n) n = some ((statGet s n).getD 0 + 1) := by
  induction s with
  | nil => simp [statBump, statGet]
  | cons p t ih =>
    by_cases hp : p.1 = n
    · simp [statBump, statGet, hp]
    · simp [statBump, statGet, hp, ih]

theorem statGet_statBump_ne (s : Stats) (n k : String) (hne : k ≠ n) :
    statGet (statBump s n) k = statGet s k := by
  induction s with
  | nil => simp [statBump, statGet, Ne.symm hne]
  | cons p t ih =>
    by_cases hp : p.1 = n
    · simp [statBump, statGet, hp, Ne.symm hne]
    · simp [statBump, statGet, hp, ih]

theorem keeps_iff (r : Histogram) :
    keeps r = true ↔ r.avg ≠ "" ∧ ∃ c, pyInt? r.count = some c ∧ 1 ≤ c := by
  unfold keeps
  cases hc : pyInt? r.count with
  | none => simp [hc]
  | some c => simp [hc]

theorem runAgg_append (st : AggState) (l1 l2 : List Histogram) :
    runAgg st (l1 ++ l2) =
      match runAgg st l1 with
      | .error e => .error e
      | .ok st1 => runAgg st1 l2 := by
  induction l1 generalizing st with
  | nil => rfl
  | cons h t ih =>
    show runAgg st (h :: (t ++ l2)) = _
    cases hf : foldRecord st h with
    | error e =>
      rw [runAgg_cons_error _ _ _ _ hf, runAgg_cons_error _ _ _ _ hf]
    | ok st1 =>
      rw [runAgg_cons_ok _ _ _ _ hf, runAgg_cons_ok _ _ _ _ hf, ih st1]

theorem bool_eq_of_iff {a b : Bool} (h : a = true ↔ b = true) : a = b := by
  cases a <;> cases b <;> simp_all

/-- Extensional characterization of the state after folding the records of
`l` from the initial state: every observable of the result is determined by
the multiset of records (given the no-conflict hypotheses), which is the
heart of the order-independence argument. -/
structure AggChar (l : List Histogram) (st : AggState) : Prop where
  rows_mem : ∀ u, (rowsGet st.rows u).isSome = true ↔
    ∃ r ∈ l, keeps r = true ∧ subjectOf r.stories = u
  slot_mem : ∀ u i, (runsGet2 st.rows u i).isSome = true ↔
    ∃ r ∈ l, keeps r = true ∧ subjectOf r.stories = u ∧
      pyInt? r.storysetRepeats = some i
  page_name_eq : ∀ u i,
    (∃ r ∈ l, keeps r = true ∧ subjectOf r.stories = u ∧
      pyInt? r.storysetRepeats = some i) →
    lookup3 st.rows u i "page_name" = some (.str u)
  trace_eq : ∀ r ∈ l, keeps r = true → ∀ i, pyInt? r.storysetRepeats = some i →
    lookup3 st.rows (subjectOf r.stories) i "trace_url" = some (.str r.traceUrls)
  metric_eq : ∀ r ∈ l, keeps r = true → ∀ i, pyInt? r.storysetRepeats = some i →
    ∃ v, pyFloat? r.avg = some v ∧
      lookup3 st.rows (subjectOf r.stories) i r.name = some (.num v)
  metric_none : ∀ u i k, k ≠ "page_name" → k ≠ "trace_url" →
    (¬ ∃ r ∈ l, keeps r = true ∧ subjectOf r.stories = u ∧
      pyInt? r.storysetRepeats = some i ∧ r.name = k) →
    lookup3 st.rows u i k = none
  fields_mem : ∀ k, k ∈ st.fieldnames ↔
    k ∈ initState.fieldnames ∨ ∃ r ∈ l, keeps r = true ∧ r.name = k
  stats_eq : ∀ n, statGet st.stats n =
    (if l.countP (fun x => keeps x && (x.name == n) && pyStrGt x.count "1") = 0
     then none
     else some (l.countP (fun x => keeps x && (x.name == n) && pyStrGt x.count "1")))

theorem aggChar_nil : AggChar [] initState := by
  refine ⟨?_, ?_, ?_, ?_, ?_, ?_, ?_, ?_⟩
  · intro u
    simp [initState, rowsGet]
  · intro u i
    simp [initState, runsGet2, rowsGet]
  · intro u i hex
    simp at hex
  · intro r hr
    simp at hr
  · intro r hr
    simp at hr
  · intro u i k _ _ _
    simp [initState, lookup3, rowsGet]
  · intro k
    simp [initState]
  · intro n
    simp [initState, statGet]

/-- Appending a record that is not folded (skipped, with `keeps` false)
leaves the characterization unchanged. -/
theorem aggChar_skip (l : List Histogram) (r : Histogram) (st0 : AggState)
    (hk : keeps r = false) (hchar : AggChar l st0) : AggChar (l ++ [r]) st0 := by
  have hknt : ¬ keeps r = true := by simp [hk]
  have hex : ∀ (P : Histogram → Prop),
      (∃ s, (s ∈ l ∨ s = r) ∧ (keeps s = true ∧ P s)) ↔
        ∃ s ∈ l, keeps s = true ∧ P s := by
    intro P
    constructor
    · rintro ⟨s, hs | rfl, hrest⟩
      · exact ⟨s, hs, hrest⟩
      · exact absurd hrest.1 hknt
    · rintro ⟨s, hs, hrest⟩
      exact ⟨s, Or.inl hs, hrest⟩
  refine ⟨?_, ?_, ?_, ?_, ?_, ?_, ?_, ?_⟩
  · intro u
    rw [hchar.rows_mem u]
    constructor
    · rintro ⟨s, hs, h2⟩
      exact ⟨s, List.mem_append_left _ hs, h2⟩
    · rintro ⟨s, hs, h2⟩
      rcases List.mem_append.mp hs with hs | hs
      · exact ⟨s, hs, h2⟩
      · rw [List.mem_singleton.mp hs] at h2
        exact absurd h2.1 hknt
  · intro u i
    rw [hchar.slot_mem u i]
    constructor
    · rintro ⟨s, hs, h2⟩
      exact ⟨s, List.mem_append_left _ hs, h2⟩
    · rintro ⟨s, hs, h2⟩
      rcases List.mem_append.mp hs with hs | hs
      · exact ⟨s, hs, h2⟩
      · rw [List.mem_singleton.mp hs] at h2
        exact absurd h2.1 hknt
  · intro u i hex2
    apply hchar.page_name_eq u i
    rcases hex2 with ⟨s, hs, h2⟩
    rcases List.mem_append.mp hs with hs | hs
    · exact ⟨s, hs, h2⟩
    · rw [List.mem_singleton.mp hs] at h2
      exact absurd h2.1 hknt
  · intro s hs hks i hi
    rcases List.mem_append.mp hs with hs | hs
    · exact hchar.trace_eq s hs hks i hi
    · rw [List.mem_singleton.mp hs] at hks
      exact absurd hks hknt
  · intro s hs hks i hi
    rcases List.mem_append.mp hs with hs | hs
    · exact hchar.metric_eq s hs hks i hi
    · rw [List.mem_singleton.mp hs] at hks
      exact absurd hks hknt
  · intro u i k h1 h2 hnex
    apply hchar.metric_none u i k h1 h2
    rintro ⟨s, hs, h3⟩
    exact hnex ⟨s, List.mem_append_left _ hs, h3⟩
  · intro k
    rw [hchar.fields_mem k]
    constructor
    · rintro (h | ⟨s, hs, h2⟩)
      · exact Or.inl h
      · exact Or.inr ⟨s, List.mem_append_left _ hs, h2⟩
    · rintro (h | ⟨s, hs, h2⟩)
      · exact Or.inl h
      · rcases List.mem_append.mp hs with hs | hs
        · exact Or.inr ⟨s, hs, h2⟩
        · rw [List.mem_singleton.mp hs] at h2
          exact absurd h2.1 hknt
  · intro n
    rw [hchar.stats_eq n]
    have : List.countP (fun x => keeps x && (x.name == n) && pyStrGt x.count "1")
        (l ++ [r]) =
        List.countP (fun x => keeps x && (x.name == n) && pyStrGt x.count "1") l := by
      rw [List.countP_append]
      simp [List.countP_cons, hk]
    rw [this]

/-- Characterization step for a folded record: given the final row dict `d`
of the record's slot described by its lookups, the characterization extends
from `l` to `l ++ [r]`. -/
theorem aggChar_snoc_core (l : List Histogram) (r : Histogram) (st0 st : AggState)
    (i : Int) (v : PyFloat)  (d : Dict)
    (hk : keeps r = true) (hi : pyInt? r.storysetRepeats = some i)
    (hv : pyFloat? r.avg = some v)
    (hgoodl : ∀ s ∈ l, s.name ≠ "page_name" ∧ s.name ≠ "trace_url")
    (hdup : ∀ s ∈ l, subjectOf s.stories = subjectOf r.stories →
      pyInt? s.storysetRepeats = pyInt? r.storysetRepeats → s.name = r.name →
      pyFloat? s.avg = pyFloat? r.avg)
    (htrp : ∀ s ∈ l, keeps s = true → subjectOf s.stories = subjectOf r.stories →
      pyInt? s.storysetRepeats = some i → s.traceUrls = r.traceUrls)
    (hrows : st.rows = setRow st0.rows (subjectOf r.stories) i d)
    (hfields : st.fieldnames = fnAdd st0.fieldnames r.name)
    (hstats : st.stats = stepStats st0 r)
    (hdpn : dictGet d "page_name" = some (.str (subjectOf r.stories)))
    (hdname : dictGet d r.name = some (.num v))
    (hdtrace : dictGet d "trace_url" = some (.str r.traceUrls))
    (hdother : ∀ k, k ≠ "page_name" → k ≠ "trace_url" → k ≠ r.name →
      dictGet d k = lookup3 st0.rows (subjectOf r.stories) i k)
    (hchar : AggChar l st0) : AggChar (l ++ [r]) st := by
  refine ⟨?_, ?_, ?_, ?_, ?_, ?_, ?_, ?_⟩
  · -- rows_mem
    intro u'
    rw [hrows]
    by_cases hu : subjectOf r.stories = u'
    · subst hu
      constructor
      · intro _
        exact ⟨r, List.mem_append_right _ (List.mem_singleton_self r), hk, rfl⟩
      · intro _
        exact rowsGet_setRow_self_isSome st0.rows _ i d
    · rw [rowsGet_setRow_ne _ _ _ _ _ hu, hchar.rows_mem u']
      constructor
      · rintro ⟨s, hs, h2⟩
        exact ⟨s, List.mem_append_left _ hs, h2⟩
      · rintro ⟨s, hs, h2⟩
        rcases List.mem_append.mp hs with hs | hs
        · exact ⟨s, hs, h2⟩
        · rw [List.mem_singleton.mp hs] at h2
          exact absurd h2.2 hu
  · -- slot_mem
    intro u' i'
    rw [hrows]
    by_cases hui : subjectOf r.stories = u' ∧ i = i'
    · obtain ⟨hu, hii⟩ := hui
      subst hu
      subst hii
      rw [runsGet2_setRow_self]
      constructor
      · intro _
        exact ⟨r, List.mem_append_right _ (List.mem_singleton_self r), hk, rfl, hi⟩
      · intro _
        rfl
    · have hne : subjectOf r.stories ≠ u' ∨ i ≠ i' := by tauto
      rw [runsGet2_setRow_ne _ _ _ _ _ _ hne, hchar.slot_mem u' i']
      constructor
      · rintro ⟨s, hs, h2⟩
        exact ⟨s, List.mem_append_left _ hs, h2⟩
      · rintro ⟨s, hs, hk2, hsu, hsi⟩
        rcases List.mem_append.mp hs with hs | hs
        · exact ⟨s, hs, hk2, hsu, hsi⟩
        · rw [List.mem_singleton.mp hs] at hsu hsi
          rw [hi] at hsi
          injection hsi with hsi
          exact absurd ⟨hsu, hsi⟩ hui
  · -- page_name_eq
    intro u' i' hex
    rw [hrows]
    by_cases hui : subjectOf r.stories = u' ∧ i = i'
    · obtain ⟨hu, hii⟩ := hui
      subst hu
      subst hii
      rw [lookup3_setRow_self, hdpn]
    · have hne : subjectOf r.stories ≠ u' ∨ i ≠ i' := by tauto
      rw [lookup3_setRow_ne _ _ _ _ _ _ _ hne]
      apply hchar.page_name_eq u' i'
      rcases hex with ⟨s, hs, hk2, hsu, hsi⟩
      rcases List.mem_append.mp hs with hs | hs
      · exact ⟨s, hs, hk2, hsu, hsi⟩
      · rw [List.mem_singleton.mp hs] at hsu hsi
        rw [hi] at hsi
        injection hsi with hsi
        exact absurd ⟨hsu, hsi⟩ hui
  · -- trace_eq
    intro s hs hks i' hi'
    rw [hrows]
    rcases List.mem_append.mp hs with hsl | hsr
    · by_cases hui : subjectOf r.stories = subjectOf s.stories ∧ i = i'
      · obtain ⟨hu, hii⟩ := hui
        subst hii
        rw [← hu, lookup3_setRow_self, hdtrace,
          htrp s hsl hks hu.symm hi']
      · have hne : subjectOf r.stories ≠ subjectOf s.stories ∨ i ≠ i' := by tauto
        rw [lookup3_setRow_ne _ _ _ _ _ _ _ hne]
        exact hchar.trace_eq s hsl hks i' hi'
    · have hsr' := List.mem_singleton.mp hsr
      subst hsr'
      rw [hi] at hi'
      injection hi' with hi'
      subst hi'
      rw [lookup3_setRow_self, hdtrace]
  · -- metric_eq
    intro s hs hks i' hi'
    rcases List.mem_append.mp hs with hsl | hsr
    · obtain ⟨w, hw, hlook⟩ := hchar.metric_eq s hsl hks i' hi'
      refine ⟨w, hw, ?_⟩
      rw [hrows]
      by_cases hui : subjectOf r.stories = subjectOf s.stories ∧ i = i'
      · obtain ⟨hu, hii⟩ := hui
        subst hii
        rw [← hu, lookup3_setRow_self]
        by_cases hn : s.name = r.name
        · rw [hn, hdname]
          have hva : pyFloat? s.avg = pyFloat? r.avg :=
            hdup s hsl hu.symm (by rw [hi', hi]) hn
          rw [hw, hv] at hva
          injection hva with hva
          rw [hva]
        · rw [hdother s.name (hgoodl s hsl).1 (hgoodl s hsl).2 hn, hu]
          exact hlook
      · have hne : subjectOf r.stories ≠ subjectOf s.stories ∨ i ≠ i' := by tauto
        rw [lookup3_setRow_ne _ _ _ _ _ _ _ hne]
        exact hlook
    · have hsr' := List.mem_singleton.mp hsr
      subst hsr'
      rw [hi] at hi'
      injection hi' with hi'
      subst hi'
      refine ⟨v, hv, ?_⟩
      rw [hrows, lookup3_setRow_self, hdname]
  · -- metric_none
    intro u' i' k hkp hkt hnex
    have hnexl : ¬ ∃ s ∈ l, keeps s = true ∧ subjectOf s.stories = u' ∧
        pyInt? s.storysetRepeats = some i' ∧ s.name = k := by
      rintro ⟨s, hs, h3⟩
      exact hnex ⟨s, List.mem_append_left _ hs, h3⟩
    rw [hrows]
    by_cases hui : subjectOf r.stories = u' ∧ i = i'
    · obtain ⟨hu, hii⟩ := hui
      subst hu
      subst hii
      rw [lookup3_setRow_self]
      have hkr : k ≠ r.name := by
        intro he
        exact hnex ⟨r, List.mem_append_right _ (List.mem_singleton_self r),
          hk, rfl, hi, he.symm⟩
      rw [hdother k hkp hkt hkr]
      exact hchar.metric_none _ i k hkp hkt hnexl
    · have hne : subjectOf r.stories ≠ u' ∨ i ≠ i' := by tauto
      rw [lookup3_setRow_ne _ _ _ _ _ _ _ hne]
      exact hchar.metric_none u' i' k hkp hkt hnexl
  · -- fields_mem
    intro k
    rw [hfields, mem_fnAdd_iff, hchar.fields_mem k]
    constructor
    · rintro ((h | ⟨s, hs, h2⟩) | hkr)
      · exact Or.inl h
      · exact Or.inr ⟨s, List.mem_append_left _ hs, h2⟩
      · exact Or.inr ⟨r, List.mem_append_right _ (List.mem_singleton_self r),
          hk, hkr.symm⟩
    · rintro (h | ⟨s, hs, h2⟩)
      · exact Or.inl (Or.inl h)
      · rcases List.mem_append.mp hs with hs | hs
        · exact Or.inl (Or.inr ⟨s, hs, h2⟩)
        · rw [List.mem_singleton.mp hs] at h2
          exact Or.inr h2.2.symm
  · -- stats_eq
    intro n
    rw [hstats]
    unfold stepStats
    have hcount : List.countP (fun x => keeps x && (x.name == n) && pyStrGt x.count "1")
        (l ++ [r]) =
        List.countP (fun x => keeps x && (x.name == n) && pyStrGt x.count "1") l +
          (if keeps r && (r.name == n) && pyStrGt r.count "1" then 1 else 0) := by
      rw [List.countP_append]
      simp [List.countP_cons]
    by_cases hgt : pyStrGt r.count "1" = true
    · rw [if_pos hgt]
      by_cases hn : r.name = n
      · subst hn
        rw [statGet_statBump_self, hchar.stats_eq r.name, hcount]
        simp only [hk, hgt, beq_self_eq_true, Bool.and_self, Bool.and_true,
          Bool.true_and, if_true]
        by_cases hc0 : List.countP
            (fun x => keeps x && (x.name == r.name) && pyStrGt x.count "1") l = 0
        · rw [if_pos hc0, hc0]
          simp
        · rw [if_neg hc0]
          have : ¬ (List.countP
              (fun x => keeps x && (x.name == r.name) && pyStrGt x.count "1") l + 1 = 0) := by
            omega
          rw [if_neg this]
          simp
      · rw [statGet_statBump_ne st0.stats r.name n (fun he => hn he.symm),
          hchar.stats_eq n, hcount]
        have hbeq : (r.name == n) = false := by
          simp [hn]
        simp [hbeq]
    · rw [if_neg hgt]
      rw [hchar.stats_eq n, hcount]
      have hgt' : pyStrGt r.count "1" = false := by
        simp at hgt
        exact hgt
      simp [hgt']

/-- The characterization extends across one successful aggregation step. -/
theorem aggChar_snoc (l : List Histogram) (r : Histogram) (st0 st : AggState)
    (hgoodr : r.name ≠ "page_name" ∧ r.name ≠ "trace_url")
    (hgoodl : ∀ s ∈ l, s.name ≠ "page_name" ∧ s.name ≠ "trace_url")
    (hdup : ∀ s ∈ l, subjectOf s.stories = subjectOf r.stories →
      pyInt? s.storysetRepeats = pyInt? r.storysetRepeats → s.name = r.name →
      pyFloat? s.avg = pyFloat? r.avg)
    (hchar : AggChar l st0) (hf : foldRecord st0 r = .ok st) :
    AggChar (l ++ [r]) st := by
  by_cases hk : keeps r = true
  · obtain ⟨ha, c, hc, hge⟩ := (keeps_iff r).mp hk
    cases hi : pyInt? r.storysetRepeats with
    | none =>
      rw [(foldRecord_error_conv st0 r ha).2.1 c hc hge hi] at hf
      exact absurd hf (by simp)
    | some i =>
      cases hv : pyFloat? r.avg with
      | none =>
        rw [(foldRecord_error_conv st0 r ha).2.2 c i hc hge hi hv] at hf
        exact absurd hf (by simp)
      | some v =>
        rw [foldRecord_keep st0 r c i v ha hc hge hi hv] at hf
        have hkey0 : dictGet (stepDict st0 r i v) "trace_url" =
            lookup3 st0.rows (subjectOf r.stories) i "trace_url" :=
          stepDict_get_other st0 r i v "trace_url" hgoodr.2 (by decide)
        cases hkey : dictGet (stepDict st0 r i v) "trace_url" with
        | none =>
          rw [foldStep_eq_none st0 r i v hkey] at hf
          injection hf with hf
          have htrp : ∀ s ∈ l, keeps s = true →
              subjectOf s.stories = subjectOf r.stories →
              pyInt? s.storysetRepeats = some i → s.traceUrls = r.traceUrls := by
            intro s hs hks hsu hsi
            have htr := hchar.trace_eq s hs hks i hsi
            rw [hsu, ← hkey0, hkey] at htr
            exact absurd htr (by simp)
          refine aggChar_snoc_core l r st0 st i v
            (dictSet (stepDict st0 r i v) "trace_url" (.str r.traceUrls))
            hk hi hv hgoodl hdup htrp ?_ ?_ ?_ ?_ ?_ ?_ ?_ hchar
          · rw [← hf]
          · rw [← hf]
          · rw [← hf]
          · rw [dictGet_dictSet_ne _ _ _ _ (by decide)]
            exact stepDict_get_page_name st0 r i v hgoodr.1
          · rw [dictGet_dictSet_ne _ _ _ _ (fun he => hgoodr.2 he.symm)]
            exact stepDict_get_name st0 r i v
          · exact dictGet_dictSet_self _ _ _
          · intro k hkp hkt hkr
            rw [dictGet_dictSet_ne _ _ _ _ (Ne.symm hkt)]
            exact stepDict_get_other st0 r i v k (Ne.symm hkr) hkp
        | some stored =>
          rw [foldStep_eq_some st0 r i v stored hkey] at hf
          by_cases hst : stored ≠ .str r.traceUrls
          · rw [if_pos hst] at hf
            exact absurd hf (by simp)
          · rw [if_neg hst] at hf
            injection hf with hf
            have hst' : stored = .str r.traceUrls := not_not.mp hst
            subst hst'
            have htrp : ∀ s ∈ l, keeps s = true →
                subjectOf s.stories = subjectOf r.stories →
                pyInt? s.storysetRepeats = some i → s.traceUrls = r.traceUrls := by
              intro s hs hks hsu hsi
              have htr := hchar.trace_eq s hs hks i hsi
              rw [hsu, ← hkey0, hkey] at htr
              injection htr with htr
              injection htr with htr
              exact htr.symm
            refine aggChar_snoc_core l r st0 st i v (stepDict st0 r i v)
              hk hi hv hgoodl hdup htrp ?_ ?_ ?_ ?_ ?_ ?_ ?_ hchar
            · rw [← hf]
            · rw [← hf]
            · rw [← hf]
            · exact stepDict_get_page_name st0 r i v hgoodr.1
            · exact stepDict_get_name st0 r i v
            · exact hkey
            · intro k hkp hkt hkr
              exact stepDict_get_other st0 r i v k (Ne.symm hkr) hkp
  · by_cases ha : r.avg = ""
    · rw [foldRecord_skip st0 r (Or.inl ha)] at hf
      injection hf with hf
      subst hf
      exact aggChar_skip l r st0 (by simp at hk; simp [hk]) hchar
    · cases hc : pyInt? r.count with
      | none =>
        rw [(foldRecord_error_conv st0 r ha).1 hc] at hf
        exact absurd hf (by simp)
      | some c =>
        by_cases hlt : c < 1
        · rw [foldRecord_skip st0 r (Or.inr ⟨c, hc, hlt⟩)] at hf
          injection hf with hf
          subst hf
          exact aggChar_skip l r st0 (by simp at hk; simp [hk]) hchar
        · exact absurd ((keeps_iff r).mpr ⟨ha, c, hc, Int.not_lt.mp hlt⟩) hk

/-- The characterization holds for every successful run of the Aggregator
over a record list with the no-conflict hypotheses. -/
theorem runAgg_char : ∀ (l : List Histogram) (st : AggState),
    (∀ r ∈ l, r.name ≠ "page_name" ∧ r.name ≠ "trace_url") →
    (∀ r ∈ l, ∀ s ∈ l, subjectOf r.stories = subjectOf s.stories →
      pyInt? r.storysetRepeats = pyInt? s.storysetRepeats → r.name = s.name →
      pyFloat? r.avg = pyFloat? s.avg) →
    runAgg initState l = .ok st → AggChar l st := by
  intro l
  induction l using List.reverseRecOn with
  | nil =>
    intro st _ _ hok
    injection hok with hok
    subst hok
    exact aggChar_nil
  | append_singleton l r ih =>
    intro st hgood hdup hok
    rw [runAgg_append] at hok
    cases h0 : runAgg initState l with
    | error e =>
      rw [h0] at hok
      exact absurd hok (by simp)
    | ok st0 =>
      rw [h0] at hok
      change runAgg st0 [r] = Except.ok st at hok
      cases hf : foldRecord st0 r with
      | error e =>
        rw [runAgg_cons_error _ _ _ _ hf] at hok
        exact absurd hok (by simp)
      | ok st1 =>
        rw [runAgg_cons_ok _ _ _ _ hf] at hok
        injection hok with hok
        subst hok
        have hrm : r ∈ l ++ [r] :=
          List.mem_append_right _ (List.mem_singleton_self r)
        exact aggChar_snoc l r st0 st1 (hgood r hrm)
          (fun s hs => hgood s (List.mem_append_left _ hs))
          (fun s hs h1 h2 h3 =>
            hdup s (List.mem_append_left _ hs) r hrm h1 h2 h3)
          (ih st0 (fun s hs => hgood s (List.mem_append_left _ hs))
            (fun s hs t ht h1 h2 h3 =>
              hdup s (List.mem_append_left _ hs) t (List.mem_append_left _ ht) h1 h2 h3)
            h0) hf

/-! ### Claim C5: folding is order-independent -/

/-- C5 counterexample: two records with the same Subject, repetition index
and metric name but different `avg` values (`"1"` and `"2"`), identical
`traceUrls` (so no `TraceUrlMismatch` is raised in either order), are a
permutation pair on which the two orders produce different AggregateRows:
the metric cell is `2.0` in one order and `1.0` in the other (last write
wins), so the folding is not order-independent as claimed. -/
theorem C5_counterexample :
    List.Perm [(⟨"m", "1", "1", "s", "1", "t"⟩ : Histogram),
               ⟨"m", "2", "1", "s", "1", "t"⟩]
      [⟨"m", "2", "1", "s", "1", "t"⟩, ⟨"m", "1", "1", "s", "1", "t"⟩] ∧
    get_run_results [⟨"m", "1", "1", "s", "1", "t"⟩, ⟨"m", "2", "1", "s", "1", "t"⟩] =
      .ok ⟨[("s", [(1, [("page_name", .str "s"),
                        ("m", .num (.finite (mkRat 2 1))),
                        ("trace_url", .str "t")])])],
           ["page_name", "run_index", "trace_url", "m"], []⟩ ∧
    get_run_results [⟨"m", "2", "1", "s", "1", "t"⟩, ⟨"m", "1", "1", "s", "1", "t"⟩] =
      .ok ⟨[("s", [(1, [("page_name", .str "s"),
                        ("m", .num (.finite (mkRat 1 1))),
                        ("trace_url", .str "t")])])],
           ["page_name", "run_index", "trace_url", "m"], []⟩ ∧
    ¬ stateEquiv
        ⟨[("s", [(1, [("page_name", .str "s"),
                      ("m", .num (.finite (mkRat 2 1))),
                      ("trace_url", .str "t")])])],
         ["page_name", "run_index", "trace_url", "m"], []⟩
        ⟨[("s", [(1, [("page_name", .str "s"),
                      ("m", .num (.finite (mkRat 1 1))),
                      ("trace_url", .str "t")])])],
         ["page_name", "run_index", "trace_url", "m"], []⟩ := by
  refine ⟨(List.Perm.swap _ _ _).symm, by decide, by decide, ?_⟩
  intro h
  exact absurd (h.1.2.2 "s" 1 "m") (by decide)

/-- C5 (amended): for every pair of record sequences that are permutations of
each other, on which the Aggregator succeeds (raising neither
`TraceUrlMismatch` nor a conversion error in either order), and in which no
metric name is `"page_name"` or `"trace_url"` and no two records with the
same Subject, repetition index and metric name carry different parsed `avg`
values, the two runs produce the same AggregateRow structure, ColumnSet and
AnomalyStats (equality as Python `==` sees the returned nested structures);
mismatch detection itself remains first-write-wins, so order only matters
through duplicate keys with conflicting values. -/
theorem C5_order_independence (l1 l2 : List Histogram) (st1 st2 : AggState)
    (hperm : l1.Perm l2)
    (hgood : ∀ r ∈ l1, r.name ≠ "page_name" ∧ r.name ≠ "trace_url")
    (hdup : ∀ r ∈ l1, ∀ s ∈ l1, subjectOf r.stories = subjectOf s.stories →
      pyInt? r.storysetRepeats = pyInt? s.storysetRepeats → r.name = s.name →
      pyFloat? r.avg = pyFloat? s.avg)
    (h1 : get_run_results l1 = .ok st1) (h2 : get_run_results l2 = .ok st2) :
    stateEquiv st1 st2 := by
  have hex : ∀ (P : Histogram → Prop), (∃ r ∈ l1, P r) ↔ ∃ r ∈ l2, P r :=
    fun P => ⟨fun ⟨r, hr, hp⟩ => ⟨r, hperm.mem_iff.mp hr, hp⟩,
      fun ⟨r, hr, hp⟩ => ⟨r, hperm.mem_iff.mpr hr, hp⟩⟩
  have c1 := runAgg_char l1 st1 hgood hdup h1
  have c2 := runAgg_char l2 st2
    (fun r hr => hgood r (hperm.mem_iff.mpr hr))
    (fun r hr s hs ha hb hc =>
      hdup r (hperm.mem_iff.mpr hr) s (hperm.mem_iff.mpr hs) ha hb hc)
    h2
  have hslot_none : ∀ u i,
      (¬ ∃ r ∈ l1, keeps r = true ∧ subjectOf r.stories = u ∧
        pyInt? r.storysetRepeats = some i) →
      runsGet2 st1.rows u i = none ∧ runsGet2 st2.rows u i = none := by
    intro u i hsf
    constructor
    · cases hq : runsGet2 st1.rows u i with
      | none => rfl
      | some d =>
        exact absurd ((c1.slot_mem u i).mp (by rw [hq]; rfl)) hsf
    · cases hq : runsGet2 st2.rows u i with
      | none => rfl
      | some d =>
        exact absurd ((hex _).mpr ((c2.slot_mem u i).mp (by rw [hq]; rfl))) hsf
  refine ⟨⟨?_, ?_, ?_⟩, ?_, ?_⟩
  · intro u
    exact bool_eq_of_iff ((c1.rows_mem u).trans ((hex _).trans (c2.rows_mem u).symm))
  · intro u i
    exact bool_eq_of_iff ((c1.slot_mem u i).trans ((hex _).trans (c2.slot_mem u i).symm))
  · intro u i k
    by_cases hpn : k = "page_name"
    · subst hpn
      by_cases hsf : ∃ r ∈ l1, keeps r = true ∧ subjectOf r.stories = u ∧
          pyInt? r.storysetRepeats = some i
      · rw [c1.page_name_eq u i hsf, c2.page_name_eq u i ((hex _).mp hsf)]
      · obtain ⟨hn1, hn2⟩ := hslot_none u i hsf
        rw [lookup3_none_of_runsGet2_none _ _ _ _ hn1,
          lookup3_none_of_runsGet2_none _ _ _ _ hn2]
    · by_cases htr : k = "trace_url"
      · subst htr
        by_cases hsf : ∃ r ∈ l1, keeps r = true ∧ subjectOf r.stories = u ∧
            pyInt? r.storysetRepeats = some i
        · obtain ⟨r, hr, hk, hsu, hsi⟩ := hsf
          have e1 := c1.trace_eq r hr hk i hsi
          have e2 := c2.trace_eq r (hperm.mem_iff.mp hr) hk i hsi
          rw [hsu] at e1 e2
          rw [e1, e2]
        · obtain ⟨hn1, hn2⟩ := hslot_none u i hsf
          rw [lookup3_none_of_runsGet2_none _ _ _ _ hn1,
            lookup3_none_of_runsGet2_none _ _ _ _ hn2]
      · by_cases hsf : ∃ r ∈ l1, keeps r = true ∧ subjectOf r.stories = u ∧
            pyInt? r.storysetRepeats = some i ∧ r.name = k
        · obtain ⟨r, hr, hk, hsu, hsi, hnk⟩ := hsf
          obtain ⟨v1, hv1, e1⟩ := c1.metric_eq r hr hk i hsi
          obtain ⟨v2, hv2, e2⟩ := c2.metric_eq r (hperm.mem_iff.mp hr) hk i hsi
          have hveq : v1 = v2 := by
            rw [hv1] at hv2
            injection hv2
          rw [hsu, hnk] at e1 e2
          rw [e1, e2, hveq]
        · rw [c1.metric_none u i k hpn htr hsf,
            c2.metric_none u i k hpn htr (fun hx => hsf ((hex _).mpr hx))]
  · intro k
    rw [c1.fields_mem k, c2.fields_mem k]
    exact or_congr_right (hex _)
  · intro n
    rw [c1.stats_eq n, c2.stats_eq n, hperm.countP_eq _]

/-- Witness for C5 (amended): two records with different metric names for the
same (Subject, repetition) pair, in the two orders. -/
theorem C5_order_independence_witness :
    stateEquiv
      ⟨[("s", [(1, [("page_name", .str "s"),
                    ("m1", .num (.finite (mkRat 1 1))),
                    ("trace_url", .str "t"),
                    ("m2", .num (.finite (mkRat 2 1)))])])],
       ["page_name", "run_index", "trace_url", "m1", "m2"], []⟩
      ⟨[("s", [(1, [("page_name", .str "s"),
                    ("m2", .num (.finite (mkRat 2 1))),
                    ("trace_url", .str "t"),
                    ("m1", .num (.finite (mkRat 1 1)))])])],
       ["page_name", "run_index", "trace_url", "m2", "m1"], []⟩ :=
  C5_order_independence
    [⟨"m1", "1", "1", "s", "1", "t"⟩, ⟨"m2", "2", "1", "s", "1", "t"⟩]
    [⟨"m2", "2", "1", "s", "1", "t"⟩, ⟨"m1", "1", "1", "s", "1", "t"⟩]
    _ _ (List.Perm.swap _ _ _).symm (by decide) (by decide) (by decide) (by decide)

end CT
